import Mathlib

/-!
Verification of the submission/completion lifecycle manager of the `trale`
reactor (src/reactor/uring.rs, src/reactor/uring/result.rs,
src/reactor/uring/io/{mod,oneshot,multishot}.rs).

The Rust code is shallowly embedded:

* `slab::Slab<V>` is modelled as `List (Option V)`; the key returned by
  `insert` is a vacant key (modelled as the first vacant index; the real
  slab reuses freed keys from a free list — no property here depends on
  which vacant key is chosen, only that it is vacant).
* `ringbuffer::ConstGenericRingBuffer<i32, 1024>` is modelled as a
  `List Int` bounded by 1024; the crate's `push` overwrites the oldest
  element when the buffer is full, and `dequeue` removes the oldest.
* `i32` results are modelled as `Int`; the only operation whose 32-bit
  overflow behaviour matters is `i32::abs` (see `i32_abs`).
* Panics (`unwrap`, `panic!`, `expect`) are modelled by `Option`-valued
  operations returning `none`.
* `std::io::Error::from_raw_os_error(c)` is modelled by its raw OS error
  code `c`, so `std::io::Result<i32>` becomes `Except Int Int`.
-/

/-- Dense-key allocator (`slab::Slab`): a list of cells, `none` = vacant. -/
abbrev Slab (V : Type) : Type := List (Option V)

/-- `Slab::get`: the value stored under key `i`, if occupied. -/
def slabGet {V : Type} : Slab V → Nat → Option V
  | [], _ => none
  | o :: _, 0 => o
  | _ :: rest, n + 1 => slabGet rest n

/-- Overwrite the cell under key `i` (no-op when `i` is out of range). -/
def slabSet {V : Type} : Slab V → Nat → Option V → Slab V
  | [], _, _ => []
  | _ :: rest, 0, x => x :: rest
  | o :: rest, n + 1, x => o :: slabSet rest n x

/-- `Slab::remove` at an occupied key: vacate the cell. -/
def slabRemove {V : Type} (l : Slab V) (i : Nat) : Slab V :=
  slabSet l i none

/-- `Slab::insert`: store `x` under a vacant key (first vacant index) and
return the new slab together with the key. -/
def slabInsert {V : Type} : Slab V → V → Slab V × Nat
  | [], x => ([some x], 0)
  | none :: rest, x => (some x :: rest, 0)
  | some y :: rest, x =>
    let r := slabInsert rest x
    (some y :: r.1, r.2 + 1)

/-- `Slab::is_empty`: no occupied cell. -/
def slabIsEmpty {V : Type} : Slab V → Bool
  | [] => true
  | none :: rest => slabIsEmpty rest
  | some _ :: _ => false

theorem slabGet_slabSet_self {V : Type} (l : Slab V) (i : Nat) (x : Option V)
    (y : V) (h : slabGet l i = some y) : slabGet (slabSet l i x) i = x := by
  induction l generalizing i with
  | nil => simp [slabGet] at h
  | cons hd tl ih =>
    cases i with
    | zero => simp [slabGet, slabSet]
    | succ n => simpa [slabGet, slabSet] using ih n h

theorem slabGet_slabSet_ne {V : Type} (l : Slab V) (i j : Nat) (x : Option V)
    (h : j ≠ i) : slabGet (slabSet l i x) j = slabGet l j := by
  induction l generalizing i j with
  | nil => simp [slabSet]
  | cons hd tl ih =>
    cases i with
    | zero =>
      cases j with
      | zero => exact absurd rfl h
      | succ m => simp [slabGet, slabSet]
    | succ n =>
      cases j with
      | zero => simp [slabGet, slabSet]
      | succ m =>
        simp only [slabGet, slabSet]
        exact ih n m (fun hc => h (by omega))

theorem slabInsert_fresh {V : Type} (l : Slab V) (x : V) :
    slabGet l (slabInsert l x).2 = none := by
  induction l with
  | nil => simp [slabGet]
  | cons hd tl ih =>
    cases hd with
    | none => simp [slabInsert, slabGet]
    | some y => simpa [slabInsert, slabGet] using ih

theorem slabGet_slabInsert_self {V : Type} (l : Slab V) (x : V) :
    slabGet (slabInsert l x).1 (slabInsert l x).2 = some x := by
  induction l with
  | nil => simp [slabInsert, slabGet]
  | cons hd tl ih =>
    cases hd with
    | none => simp [slabInsert, slabGet]
    | some y => simpa [slabInsert, slabGet] using ih

theorem slabGet_slabInsert_ne {V : Type} (l : Slab V) (x : V) (j : Nat)
    (h : j ≠ (slabInsert l x).2) : slabGet (slabInsert l x).1 j = slabGet l j := by
  induction l generalizing j with
  | nil =>
    cases j with
    | zero => exact absurd rfl h
    | succ m => simp [slabInsert, slabGet]
  | cons hd tl ih =>
    cases hd with
    | none =>
      cases j with
      | zero => simp [slabInsert] at h
      | succ m => simp [slabInsert, slabGet]
    | some y =>
      cases j with
      | zero => simp [slabInsert, slabGet]
      | succ m =>
        simp only [slabInsert, slabGet]
        exact ih m (fun hc => h (by simp [slabInsert, hc]))

theorem slabIsEmpty_of_all_none {V : Type} (l : Slab V)
    (h : ∀ i, slabGet l i = none) : slabIsEmpty l = true := by
  induction l with
  | nil => rfl
  | cons hd tl ih =>
    cases hd with
    | none =>
      simp only [slabIsEmpty]
      exact ih (fun i => h (i + 1))
    | some y => exact absurd (h 0) (by simp [slabGet])

/-! ## The result stores (src/reactor/uring/result.rs) -/

/-- `ResultState` of a oneshot result slot. -/
inductive ResultState : Type where
  | pending : ResultState
  | set (v : Int) : ResultState
  | dropped : ResultState
deriving DecidableEq, Repr

/-- `OneshotStore`: `Slab<ResultState>`. -/
abbrev OneshotStore : Type := Slab ResultState

/-- `OneshotStore::set_result(result, idx)`.  `get_mut(idx).unwrap()` panics
(`none`) on a vacant key; a `Dropped` slot is removed, any other slot is
overwritten with `Set(result)`. -/
def OneshotStore.set_result (st : OneshotStore) (result : Int) (idx : Nat) :
    Option OneshotStore :=
  match slabGet st idx with
  | none => none
  | some ResultState.dropped => some (slabRemove st idx)
  | some _ => some (slabSet st idx (some (ResultState.set result)))

/-- `OneshotStore::get_result(idx)`: `Pending` returns nothing, `Set(v)`
removes the slot and returns `v`, `Dropped` panics (`none`), vacant key
panics (`none`). -/
def OneshotStore.get_result (st : OneshotStore) (idx : Nat) :
    Option (Option Int × OneshotStore) :=
  match slabGet st idx with
  | none => none
  | some ResultState.pending => some (none, st)
  | some (ResultState.set v) => some (some v, slabRemove st idx)
  | some ResultState.dropped => none

/-- `OneshotStore::drop_result(idx)`: a `Set` slot is removed, any other
slot is overwritten with `Dropped`; vacant key panics (`none`). -/
def OneshotStore.drop_result (st : OneshotStore) (idx : Nat) :
    Option OneshotStore :=
  match slabGet st idx with
  | none => none
  | some (ResultState.set _) => some (slabRemove st idx)
  | some _ => some (slabSet st idx (some ResultState.dropped))

/-- `OneshotStore::create_slot()`. -/
def OneshotStore.create_slot (st : OneshotStore) : OneshotStore × Nat :=
  slabInsert st ResultState.pending

/-- `ringbuffer::ConstGenericRingBuffer<i32, 1024>::push`: append, and when
the buffer already holds 1024 elements overwrite (drop) the oldest. -/
def rbPush (q : List Int) (v : Int) : List Int :=
  if q.length = 1024 then q.tail ++ [v] else q ++ [v]

/-- `MultishotResultState`: the per-slot bounded ring plus the two flags. -/
structure MultishotResultState : Type where
  results : List Int
  dropped : Bool
  finished : Bool
deriving DecidableEq, Repr

/-- `MultishotResult`, the outcome of `pop_result`. -/
inductive MultishotResult : Type where
  | value (v : Int) : MultishotResult
  | pending : MultishotResult
  | finished : MultishotResult
deriving DecidableEq, Repr

/-- `MultishotStore`: `Slab<MultishotResultState>`. -/
abbrev MultishotStore : Type := Slab MultishotResultState

/-- `MultishotStore::push_result(result, idx)`: unconditionally push onto
the slot's ring (the `dropped` flag is not consulted); vacant key panics
(`none`). -/
def MultishotStore.push_result (st : MultishotStore) (result : Int) (idx : Nat) :
    Option MultishotStore :=
  match slabGet st idx with
  | none => none
  | some m => some (slabSet st idx (some { m with results := rbPush m.results result }))

/-- `MultishotStore::pop_result(idx)`: dequeue the oldest ring element if
any; on an empty ring report `finished` or `pending` according to the flag. -/
def MultishotStore.pop_result (st : MultishotStore) (idx : Nat) :
    Option (MultishotResult × MultishotStore) :=
  match slabGet st idx with
  | none => none
  | some m =>
    match m.results with
    | v :: rest =>
      some (MultishotResult.value v, slabSet st idx (some { m with results := rest }))
    | [] =>
      if m.finished then some (MultishotResult.finished, st)
      else some (MultishotResult.pending, st)

/-- `MultishotStore::drop_result(idx)`: remove the slot if `finished`,
otherwise mark it `dropped`; vacant key panics (`none`). -/
def MultishotStore.drop_result (st : MultishotStore) (idx : Nat) :
    Option MultishotStore :=
  match slabGet st idx with
  | none => none
  | some m =>
    if m.finished then some (slabRemove st idx)
    else some (slabSet st idx (some { m with dropped := true }))

/-- `MultishotStore::set_finished(idx)`: remove the slot if `dropped`,
otherwise set the `finished` flag; vacant key panics (`none`). -/
def MultishotStore.set_finished (st : MultishotStore) (idx : Nat) :
    Option MultishotStore :=
  match slabGet st idx with
  | none => none
  | some m =>
    if m.dropped then some (slabRemove st idx)
    else some (slabSet st idx (some { m with finished := true }))

/-- `MultishotStore::create_slot()`. -/
def MultishotStore.create_slot (st : MultishotStore) : MultishotStore × Nat :=
  slabInsert st { results := [], dropped := false, finished := false }

/-! ## Result-value conversion (src/reactor/uring/io/mod.rs) -/

/-- Rust `i32::abs`.  `i32::MIN.abs()` overflows: optimized (release) code
returns `i32::MIN` itself (two's-complement wrap); we model the release
behaviour.  All other values give the mathematical absolute value. -/
def i32_abs (v : Int) : Int :=
  if v = -(2 ^ 31) then -(2 ^ 31) else (v.natAbs : Int)

/-- `reactor_value_to_result(v)`: `v < 0` fails with
`io::Error::from_raw_os_error(v.abs())` (modelled by the raw code),
otherwise succeeds with `v`. -/
def reactor_value_to_result (v : Int) : Except Int Int :=
  if v < 0 then Except.error (i32_abs v) else Except.ok v

/-! ## Handles, pending table and the reactor world
(src/reactor/uring.rs, src/reactor/uring/io/oneshot.rs,
src/reactor/uring/io/multishot.rs)

The wake-token type parameter `T` of `ReactorUring<T>` is opaque to the
reactor (it is only moved/cloned); we instantiate it with `Nat`.

The `World` couples the reactor state (`pending`, the two stores, the live
handles) with a minimal model of the kernel side of the ring:

* `awaiting` — tags of submissions whose final completion has not yet been
  drained from the completion queue.  A completion `(tag, res, more)` can
  only be drained while `tag ∈ awaiting`; draining a final completion
  (`more = false`, and every oneshot completion is final) retires the tag.
  A synchronous cancel of a multishot submission makes the kernel post its
  final completion, so the tag stays in `awaiting` until that completion is
  drained.
* `cancelLog` — the log of `register_sync_cancel` calls issued by
  `Drop for MultishotUringIo` (spec §4.6: the cancel "must succeed or
  panic — it is the only supported outcome"; we model it as succeeding).
-/

/-- `IoKind` (src/reactor/uring.rs): oneshot or multishot submission. -/
inductive HKind : Type where
  | oneshot : HKind
  | multi : HKind
deriving DecidableEq, Repr

/-- `PendingIo<T>` (src/reactor/uring.rs): the pending-table entry. -/
structure PendingEntry : Type where
  assocObj : Nat
  resultSlabIdx : Nat
  kind : HKind
deriving DecidableEq, Repr

/-- `IoState` of a handle.  `OneshotUringIo` has `New`, `Submitted(slot)`
and `Finished(v)`; `MultishotUringIo` has only `New` and
`Submitted(slot, user_data)` — no terminal state.  We record the tag for
both (oneshot never reads it). -/
inductive HState : Type where
  | hNew : HState
  | submitted (slot : Nat) (tag : Nat) : HState
  | finishedWith (v : Int) : HState
deriving DecidableEq, Repr

/-- A live or dropped user-facing I/O handle. -/
structure Handle : Type where
  kind : HKind
  alive : Bool
  st : HState
deriving DecidableEq, Repr

/-- A kernel completion-queue entry: `user_data` tag, `result`, and the
multishot "more" flag (set = the stream continues, clear = end of
stream). -/
structure Completion : Type where
  tag : Nat
  res : Int
  more : Bool
deriving DecidableEq, Repr

deriving instance DecidableEq for Except

/-- The outcome of `submit_or_get_result`: `Poll::Pending`,
`Poll::Ready(result)` (oneshot) or `Poll::Ready(Option<result>)`
(multishot). -/
inductive PollOut : Type where
  | notReady : PollOut
  | readyOne (r : Except Int Int) : PollOut
  | readyMulti (r : Option (Except Int Int)) : PollOut
deriving DecidableEq, Repr

def listGet {α : Type} : List α → Nat → Option α
  | [], _ => none
  | a :: _, 0 => some a
  | _ :: rest, n + 1 => listGet rest n

def listSet {α : Type} : List α → Nat → α → List α
  | [], _, _ => []
  | _ :: rest, 0, x => x :: rest
  | a :: rest, n + 1, x => a :: listSet rest n x

theorem listGet_listSet_self {α : Type} (l : List α) (i : Nat) (x y : α)
    (h : listGet l i = some y) : listGet (listSet l i x) i = some x := by
  induction l generalizing i with
  | nil => simp [listGet] at h
  | cons hd tl ih =>
    cases i with
    | zero => simp [listGet, listSet]
    | succ n => simpa [listGet, listSet] using ih n h

theorem listGet_listSet_ne {α : Type} (l : List α) (i j : Nat) (x : α)
    (h : j ≠ i) : listGet (listSet l i x) j = listGet l j := by
  induction l generalizing i j with
  | nil => simp [listSet]
  | cons hd tl ih =>
    cases i with
    | zero =>
      cases j with
      | zero => exact absurd rfl h
      | succ m => simp [listGet, listSet]
    | succ n =>
      cases j with
      | zero => simp [listGet, listSet]
      | succ m =>
        simp only [listGet, listSet]
        exact ih n m (fun hc => h (by omega))

theorem listGet_append_of_some {α : Type} (l : List α) (x : α) (j : Nat) (y : α)
    (h : listGet l j = some y) : listGet (l ++ [x]) j = some y := by
  induction l generalizing j with
  | nil => simp [listGet] at h
  | cons hd tl ih =>
    cases j with
    | zero => simpa [listGet] using h
    | succ m => simpa [listGet] using ih m h

theorem listGet_append_cases {α : Type} (l : List α) (x : α) (j : Nat) (y : α)
    (h : listGet (l ++ [x]) j = some y) : listGet l j = some y ∨ y = x := by
  induction l generalizing j with
  | nil =>
    cases j with
    | zero => simp [listGet] at h; exact Or.inr h.symm
    | succ m => simp [listGet] at h
  | cons hd tl ih =>
    cases j with
    | zero => exact Or.inl (by simpa [listGet] using h)
    | succ m =>
      simp only [listGet] at h ⊢
      exact ih m h

/-- Retire a tag from the awaiting set. -/
def removeTag (l : List Nat) (t : Nat) : List Nat :=
  l.filter fun a => a != t

theorem mem_removeTag {l : List Nat} {t a : Nat} :
    a ∈ removeTag l t ↔ a ∈ l ∧ a ≠ t := by
  simp [removeTag, List.mem_filter]

/-- The reactor's aggregate state plus the kernel model. -/
structure World : Type where
  pending : Slab PendingEntry
  osStore : OneshotStore
  msStore : MultishotStore
  handles : List Handle
  awaiting : List Nat
  cancelLog : List Nat
deriving DecidableEq, Repr

def initWorld : World :=
  { pending := [], osStore := [], msStore := [], handles := [],
    awaiting := [], cancelLog := [] }

/-- `ReactorInner::submit_io(entry, obj, kind)`: create a result slot in
the store of `kind`, insert the pending entry (its key becomes the kernel
`user_data` tag), and push the submission (modelled by adding the tag to
`awaiting`).  Returns `(user_data, result_slab_idx)` (the pair returned by
the version of `submit_io` the handle modules call). -/
def World.submit_io (w : World) (obj : Nat) (kind : HKind) : World × Nat × Nat :=
  match kind with
  | HKind.oneshot =>
    let c := OneshotStore.create_slot w.osStore
    let p := slabInsert w.pending { assocObj := obj, resultSlabIdx := c.2, kind := kind }
    ({ w with osStore := c.1, pending := p.1, awaiting := p.2 :: w.awaiting }, p.2, c.2)
  | HKind.multi =>
    let c := MultishotStore.create_slot w.msStore
    let p := slabInsert w.pending { assocObj := obj, resultSlabIdx := c.2, kind := kind }
    ({ w with msStore := c.1, pending := p.1, awaiting := p.2 :: w.awaiting }, p.2, c.2)

/-- `submit_or_get_result` of the handle at index `i`
(`OneshotUringIo::submit_or_get_result` resp.
`MultishotUringIo::submit_or_get_result`), with `tok` the wake token the
provider closure would return on first submission.  `none` models a panic
(store access to a vacant or `Dropped` slot).  Polling a dropped handle is
impossible in Rust (ownership) and is also mapped to `none`. -/
def doPoll (w : World) (i : Nat) (tok : Nat) : Option (PollOut × World) :=
  match listGet w.handles i with
  | none => none
  | some hr =>
    if hr.alive = false then none else
    match hr.kind, hr.st with
    | _, HState.hNew =>
      let r := w.submit_io tok hr.kind
      some (PollOut.notReady,
        { r.1 with handles :=
            listSet r.1.handles i { hr with st := HState.submitted r.2.2 r.2.1 } })
    | HKind.oneshot, HState.submitted slot _ =>
      match OneshotStore.get_result w.osStore slot with
      | none => none
      | some (none, os1) => some (PollOut.notReady, { w with osStore := os1 })
      | some (some v, os1) =>
        some (PollOut.readyOne (reactor_value_to_result v),
          { w with osStore := os1,
                   handles := listSet w.handles i { hr with st := HState.finishedWith v } })
    | HKind.oneshot, HState.finishedWith v =>
      some (PollOut.readyOne (reactor_value_to_result v), w)
    | HKind.multi, HState.submitted slot _ =>
      match MultishotStore.pop_result w.msStore slot with
      | none => none
      | some (MultishotResult.value v, ms1) =>
        some (PollOut.readyMulti (some (reactor_value_to_result v)), { w with msStore := ms1 })
      | some (MultishotResult.pending, ms1) =>
        some (PollOut.notReady, { w with msStore := ms1 })
      | some (MultishotResult.finished, ms1) =>
        some (PollOut.readyMulti none, { w with msStore := ms1 })
    | HKind.multi, HState.finishedWith _ => none

/-- Dropping the handle at index `i`.  Oneshot (`Drop for OneshotUringIo`):
if `Submitted`, call `drop_result` on the oneshot store.  Multishot
(`Drop for MultishotUringIo`): if `Submitted`, issue the synchronous
kernel cancel keyed by the submission tag (logged in `cancelLog`), then
call `drop_result` on the multishot store.  Any other state: no store
access. -/
def doDrop (w : World) (i : Nat) : Option World :=
  match listGet w.handles i with
  | none => none
  | some hr =>
    if hr.alive = false then none else
    let w0 := { w with handles := listSet w.handles i { hr with alive := false } }
    match hr.kind, hr.st with
    | HKind.oneshot, HState.submitted slot _ =>
      match OneshotStore.drop_result w0.osStore slot with
      | none => none
      | some os1 => some { w0 with osStore := os1 }
    | HKind.multi, HState.submitted slot tag =>
      match MultishotStore.drop_result w0.msStore slot with
      | none => none
      | some ms1 => some { w0 with msStore := ms1, cancelLog := tag :: w0.cancelLog }
    | _, _ => some w0

/-- One step of `IoCompletionIter::next` (src/reactor/uring.rs), i.e. the
processing of one drained completion: look the tag up in the pending table
(`unwrap` panics on a vacant tag), route the result to the store selected
by the entry's kind, remove the pending entry for a oneshot completion,
and yield the entry's wake token.

The oneshot branch is the branch present in src/reactor/uring.rs
(`set_result` + remove the pending entry).  The multishot branch is
missing from src (the `uring.rs` in the tree is a stale revision whose
`results.get(kind).set_result(..)` dispatch target does not exist in
result.rs, and the revision of `uring.rs` that the io/oneshot.rs,
io/multishot.rs and reactor/mod.rs modules compile against is absent).
Modelled from the spec: §4.5 — for multishot, if the completion carries
the end-of-stream signal (the "more" flag clear) call `set_finished`,
otherwise call `push_result`; the pending entry is kept until the stream
is finished (removed when the final completion is drained). -/
def reactOne (w : World) (c : Completion) : Option (World × Nat) :=
  match slabGet w.pending c.tag with
  | none => none
  | some p =>
    if c.tag ∈ w.awaiting then
      match p.kind with
      | HKind.oneshot =>
        match OneshotStore.set_result w.osStore c.res p.resultSlabIdx with
        | none => none
        | some os1 =>
          some ({ w with osStore := os1,
                         pending := slabRemove w.pending c.tag,
                         awaiting := removeTag w.awaiting c.tag }, p.assocObj)
      | HKind.multi =>
        if c.more then
          match MultishotStore.push_result w.msStore c.res p.resultSlabIdx with
          | none => none
          | some ms1 => some ({ w with msStore := ms1 }, p.assocObj)
        else
          match MultishotStore.set_finished w.msStore p.resultSlabIdx with
          | none => none
          | some ms1 =>
            some ({ w with msStore := ms1,
                           pending := slabRemove w.pending c.tag,
                           awaiting := removeTag w.awaiting c.tag }, p.assocObj)
    else none

/-- `react()`: drain a batch of completions in completion-queue order,
collecting the wake tokens. -/
def reactList (w : World) : List Completion → Option (World × List Nat)
  | [] => some (w, [])
  | c :: cs =>
    match reactOne w c with
    | none => none
    | some r =>
      match reactList r.1 cs with
      | none => none
      | some r2 => some (r2.1, r.2 :: r2.2)

/-- The observable events of the reactor facade. -/
inductive Event : Type where
  | newOneshot : Event
  | newMulti : Event
  | pollEv (i : Nat) (tok : Nat) : Event
  | reactEv (cs : List Completion) : Event
  | dropEv (i : Nat) : Event
deriving DecidableEq, Repr

/-- One step of the system; `none` when the event panics or is not enabled
(kernel validity violated). -/
def step (w : World) : Event → Option World
  | Event.newOneshot =>
    some { w with handles := w.handles ++ [{ kind := HKind.oneshot, alive := true, st := HState.hNew }] }
  | Event.newMulti =>
    some { w with handles := w.handles ++ [{ kind := HKind.multi, alive := true, st := HState.hNew }] }
  | Event.pollEv i tok => (doPoll w i tok).map (fun r => r.2)
  | Event.reactEv cs => (reactList w cs).map (fun r => r.1)
  | Event.dropEv i => doDrop w i

/-- Run a finite event sequence. -/
def run (w : World) : List Event → Option World
  | [] => some w
  | e :: es =>
    match step w e with
    | none => none
    | some w1 => run w1 es

/-- `n` successive polls of handle `i`, collecting the outputs. -/
def runPolls : Nat → World → Nat → Option (List PollOut × World)
  | 0, w, _ => some ([], w)
  | n + 1, w, i =>
    match doPoll w i 0 with
    | none => none
    | some r =>
      match runPolls n r.2 i with
      | none => none
      | some r2 => some (r.1 :: r2.1, r2.2)

/-! ## Store-level claims -/

/-- A multishot slot with empty ring and the `dropped` flag set. -/
def msDroppedSlot : MultishotResultState :=
  { results := [], dropped := true, finished := false }

/-- A multishot slot whose ring is full (1024 queued values). -/
def msFullSlot : MultishotResultState :=
  { results := List.replicate 1024 0, dropped := false, finished := false }

theorem msFullSlot_length : msFullSlot.results.length = 1024 := by
  show (List.replicate 1024 (0 : Int)).length = 1024
  exact List.length_replicate 1024 0

/-- Claim C3, counterexample: `push_result` on a slot whose `dropped` flag
is set does NOT discard the value — the value is appended to the slot's
queue, which changes from `[]` to `[7]`. -/
theorem C3_counterexample :
    MultishotStore.push_result [some msDroppedSlot] 7 0 =
      some [some { results := [7], dropped := true, finished := false }] ∧
    ([7] : List Int) ≠ ([] : List Int) :=
  ⟨rfl, by decide⟩

/-- Claim C3 (amended): `push_result(slot_id, v)` appends `v` to the slot's
ring unconditionally — the `dropped` flag is not consulted.  A value pushed
onto a dropped slot is discarded only later, when `set_finished` removes
the whole slot. -/
theorem C3_push_result_unconditional (st : MultishotStore) (idx : Nat) (v : Int)
    (m : MultishotResultState) (h : slabGet st idx = some m) :
    MultishotStore.push_result st v idx =
      some (slabSet st idx (some { m with results := rbPush m.results v })) := by
  unfold MultishotStore.push_result
  rw [h]

theorem C3_push_result_unconditional_witness :
    slabGet [some msDroppedSlot] 0 = some msDroppedSlot ∧
    MultishotStore.push_result [some msDroppedSlot] 7 0 =
      some (slabSet [some msDroppedSlot] 0
        (some { msDroppedSlot with results := rbPush msDroppedSlot.results 7 })) :=
  ⟨rfl, C3_push_result_unconditional [some msDroppedSlot] 0 7 msDroppedSlot rfl⟩

/-- Claim C5, counterexample: calling `set_result(7)` on a slot in state
`Set(5)` overwrites it to `Set(7)` — a transition that is neither of the
two listed for `set_result` (it neither transitions a `Pending` slot nor
removes a `Dropped` slot), and the slot is neither left unchanged nor
removed, contradicting "no other transition is performed". -/
theorem C5_counterexample :
    OneshotStore.set_result [some (ResultState.set 5)] 7 0 =
      some [some (ResultState.set 7)] ∧
    ([some (ResultState.set 7)] : OneshotStore) ≠ [some (ResultState.set 5)] ∧
    ([some (ResultState.set 7)] : OneshotStore) ≠
      slabRemove [some (ResultState.set 5)] 0 :=
  ⟨rfl, by decide, by decide⟩

/-- Claim C5 (amended): the complete transition table of the two
operations on an occupied oneshot slot.  `set_result(v)`: `Pending` →
`Set(v)`, `Dropped` → slot removed, and additionally `Set(w)` → `Set(v)`
(overwrite).  `drop_result`: `Set` → slot removed, `Pending` → `Dropped`,
and a `Dropped` slot is left `Dropped`.  No other transition is
performed. -/
theorem C5_store_transitions (st : OneshotStore) (idx : Nat) (v : Int) :
    (slabGet st idx = some ResultState.pending →
      OneshotStore.set_result st v idx =
        some (slabSet st idx (some (ResultState.set v))) ∧
      OneshotStore.drop_result st idx =
        some (slabSet st idx (some ResultState.dropped))) ∧
    (slabGet st idx = some ResultState.dropped →
      OneshotStore.set_result st v idx = some (slabRemove st idx) ∧
      OneshotStore.drop_result st idx =
        some (slabSet st idx (some ResultState.dropped))) ∧
    (∀ w, slabGet st idx = some (ResultState.set w) →
      OneshotStore.set_result st v idx =
        some (slabSet st idx (some (ResultState.set v))) ∧
      OneshotStore.drop_result st idx = some (slabRemove st idx)) := by
  refine ⟨fun h => ?_, fun h => ?_, fun w h => ?_⟩ <;>
    exact ⟨by simp [OneshotStore.set_result, h],
           by simp [OneshotStore.drop_result, h]⟩

theorem C5_store_transitions_witness :
    slabGet [some ResultState.pending] 0 = some ResultState.pending ∧
    OneshotStore.set_result [some ResultState.pending] 9 0 =
      some (slabSet [some ResultState.pending] 0 (some (ResultState.set 9))) ∧
    OneshotStore.drop_result [some ResultState.pending] 0 =
      some (slabSet [some ResultState.pending] 0 (some ResultState.dropped)) :=
  ⟨rfl, ((C5_store_transitions [some ResultState.pending] 0 9).1 rfl).1,
    ((C5_store_transitions [some ResultState.pending] 0 9).1 rfl).2⟩

/-- Claim C6: `get_result` on a `Pending` slot returns nothing and leaves
the store unchanged; on a `Set(v)` slot it removes the slot and returns
`v`; on a `Dropped` slot it panics (programmer error, modelled `none`). -/
theorem C6_get_result (st : OneshotStore) (idx : Nat) :
    (slabGet st idx = some ResultState.pending →
      OneshotStore.get_result st idx = some (none, st)) ∧
    (∀ v, slabGet st idx = some (ResultState.set v) →
      OneshotStore.get_result st idx = some (some v, slabRemove st idx)) ∧
    (slabGet st idx = some ResultState.dropped →
      OneshotStore.get_result st idx = none) := by
  refine ⟨fun h => ?_, fun v h => ?_, fun h => ?_⟩ <;>
    simp [OneshotStore.get_result, h]

theorem C6_get_result_witness :
    slabGet [some ResultState.pending] 0 = some ResultState.pending ∧
    OneshotStore.get_result [some ResultState.pending] 0 =
      some (none, [some ResultState.pending]) ∧
    slabGet [some (ResultState.set 4)] 0 = some (ResultState.set 4) ∧
    OneshotStore.get_result [some (ResultState.set 4)] 0 =
      some (some 4, slabRemove [some (ResultState.set 4)] 0) ∧
    slabGet [some ResultState.dropped] 0 = some ResultState.dropped ∧
    OneshotStore.get_result [some ResultState.dropped] 0 = none :=
  ⟨rfl, (C6_get_result [some ResultState.pending] 0).1 rfl,
   rfl, (C6_get_result [some (ResultState.set 4)] 0).2.1 4 rfl,
   rfl, (C6_get_result [some ResultState.dropped] 0).2.2 rfl⟩

/-- Claim C8, counterexample: at `v = i32::MIN = -2^31` the conversion
does not fail with the OS error of code `|v| = 2^31`: `i32::abs` wraps
(release mode) and the error code produced is `-2^31` itself. -/
theorem C8_counterexample :
    reactor_value_to_result (-(2 ^ 31)) = Except.error (-(2 ^ 31)) ∧
    ((-(2 ^ 31) : Int) ≠ (((-(2 ^ 31) : Int)).natAbs : Int)) :=
  ⟨rfl, by decide⟩

/-- Claim C8 (amended): for every 32-bit signed completion value `v`, the
conversion succeeds with `v` when `v ≥ 0` and fails with the OS error of
code `|v|` when `-2^31 < v < 0`; at the single value `v = -2^31` the
computed error code is the wrapped `-2^31` rather than `|v|`. -/
theorem C8_value_conversion (v : Int) (hlo : -(2 ^ 31) ≤ v) (hhi : v < 2 ^ 31) :
    (0 ≤ v → reactor_value_to_result v = Except.ok v) ∧
    (v < 0 → -(2 ^ 31) < v →
      reactor_value_to_result v = Except.error ((v.natAbs : Int))) ∧
    (v = -(2 ^ 31) → reactor_value_to_result v = Except.error (-(2 ^ 31))) := by
  refine ⟨fun h => ?_, fun h h2 => ?_, fun h => ?_⟩
  · unfold reactor_value_to_result
    rw [if_neg (not_lt.mpr h)]
  · have hne : v ≠ -(2 ^ 31) := by omega
    unfold reactor_value_to_result i32_abs
    rw [if_pos h, if_neg hne]
  · subst h
    rfl

theorem C8_value_conversion_witness :
    (-(2 ^ 31) : Int) ≤ -5 ∧ (-5 : Int) < 2 ^ 31 ∧ (-5 : Int) < 0 ∧
    reactor_value_to_result (-5) = Except.error (((-5 : Int).natAbs : Int)) :=
  ⟨by decide, by decide, by decide,
    (C8_value_conversion (-5) (by decide) (by decide)).2.1 (by decide) (by decide)⟩

/-- Claim C9: when a multishot slot's ring already holds 1024 values (the
fixed capacity), `push_result(slot_id, v)` silently overwrites the oldest
queued value: the new ring is the old one minus its head plus `v` at the
back, still of length 1024; the push does not abort and does not discard
`v`. -/
theorem C9_ring_overflow (st : MultishotStore) (idx : Nat) (v : Int)
    (m : MultishotResultState) (h : slabGet st idx = some m)
    (hfull : m.results.length = 1024) :
    MultishotStore.push_result st v idx =
      some (slabSet st idx (some { m with results := m.results.tail ++ [v] })) ∧
    (m.results.tail ++ [v]).length = 1024 ∧
    m.results.tail ++ [v] = m.results.drop 1 ++ [v] := by
  refine ⟨?_, ?_, ?_⟩
  · unfold MultishotStore.push_result
    rw [h]
    simp [rbPush, hfull]
  · simp [hfull]
  · simp [List.drop_one]

theorem C9_ring_overflow_witness :
    slabGet [some msFullSlot] 0 = some msFullSlot ∧
    msFullSlot.results.length = 1024 ∧
    MultishotStore.push_result [some msFullSlot] 5 0 =
      some (slabSet [some msFullSlot] 0
        (some { msFullSlot with results := msFullSlot.results.tail ++ [5] })) :=
  ⟨rfl, msFullSlot_length,
    (C9_ring_overflow [some msFullSlot] 0 5 msFullSlot rfl msFullSlot_length).1⟩

/-! ## Completion routing and handle state machine claims -/

theorem slabGet_slabRemove_self {V : Type} (l : Slab V) (i : Nat) (y : V)
    (h : slabGet l i = some y) : slabGet (slabRemove l i) i = none :=
  slabGet_slabSet_self l i none y h

/-- Claim C2: a completion drained by `react()` is routed by the pending
entry's kind.  Oneshot: `set_result` on the oneshot store, the pending
entry is removed, the multishot store untouched.  Multishot with the
"more" flag set: `push_result`, the pending entry is kept, the oneshot
store untouched.  Multishot with the "more" flag clear (end of stream):
`set_finished`, and the pending entry is retired (kept only "until
finished or drop-cancel").  The yielded wake token is the entry's
`assoc_obj`. -/
theorem C2_completion_routing (w : World) (c : Completion) (p : PendingEntry)
    (hp : slabGet w.pending c.tag = some p) (hmem : c.tag ∈ w.awaiting) :
    (p.kind = HKind.oneshot →
      ∀ os1, OneshotStore.set_result w.osStore c.res p.resultSlabIdx = some os1 →
      reactOne w c = some ({ w with
          osStore := os1,
          pending := slabRemove w.pending c.tag,
          awaiting := removeTag w.awaiting c.tag }, p.assocObj) ∧
      slabGet (slabRemove w.pending c.tag) c.tag = none) ∧
    (p.kind = HKind.multi → c.more = true →
      ∀ ms1, MultishotStore.push_result w.msStore c.res p.resultSlabIdx = some ms1 →
      reactOne w c = some ({ w with msStore := ms1 }, p.assocObj) ∧
      slabGet ({ w with msStore := ms1 } : World).pending c.tag = some p) ∧
    (p.kind = HKind.multi → c.more = false →
      ∀ ms1, MultishotStore.set_finished w.msStore p.resultSlabIdx = some ms1 →
      reactOne w c = some ({ w with
          msStore := ms1,
          pending := slabRemove w.pending c.tag,
          awaiting := removeTag w.awaiting c.tag }, p.assocObj) ∧
      slabGet (slabRemove w.pending c.tag) c.tag = none) := by
  refine ⟨fun hk os1 hos => ?_, fun hk hmore ms1 hms => ?_, fun hk hmore ms1 hms => ?_⟩
  · exact ⟨by simp [reactOne, hp, hmem, hk, hos],
      slabGet_slabRemove_self _ _ _ hp⟩
  · exact ⟨by simp [reactOne, hp, hmem, hk, hmore, hms], hp⟩
  · exact ⟨by simp [reactOne, hp, hmem, hk, hmore, hms],
      slabGet_slabRemove_self _ _ _ hp⟩

/-- A world with one pending oneshot submission (tag 0, slot 0, token 9)
and one pending multishot submission (tag 1, slot 0, token 8). -/
def c2World : World :=
  { pending := [some { assocObj := 9, resultSlabIdx := 0, kind := HKind.oneshot },
                some { assocObj := 8, resultSlabIdx := 0, kind := HKind.multi }],
    osStore := [some ResultState.pending],
    msStore := [some { results := [], dropped := false, finished := false }],
    handles := [], awaiting := [0, 1], cancelLog := [] }

theorem C2_completion_routing_witness :
    slabGet c2World.pending 0 =
      some { assocObj := 9, resultSlabIdx := 0, kind := HKind.oneshot } ∧
    (0 : Nat) ∈ c2World.awaiting ∧
    OneshotStore.set_result c2World.osStore 5 0 = some [some (ResultState.set 5)] ∧
    reactOne c2World { tag := 0, res := 5, more := false } =
      some ({ c2World with
          osStore := [some (ResultState.set 5)],
          pending := slabRemove c2World.pending 0,
          awaiting := removeTag c2World.awaiting 0 }, 9) ∧
    slabGet (slabRemove c2World.pending 0) 0 = none :=
  ⟨rfl, by decide, rfl,
    ((C2_completion_routing c2World { tag := 0, res := 5, more := false }
        { assocObj := 9, resultSlabIdx := 0, kind := HKind.oneshot }
        rfl (by decide)).1 rfl [some (ResultState.set 5)] rfl).1,
    ((C2_completion_routing c2World { tag := 0, res := 5, more := false }
        { assocObj := 9, resultSlabIdx := 0, kind := HKind.oneshot }
        rfl (by decide)).1 rfl [some (ResultState.set 5)] rfl).2⟩

/-- Claim C10: the multishot handle has no terminal state.  Polling a
handle in `Submitted(slot, tag)` never changes the handle record (its
state remains `Submitted(slot, tag)` whatever the store holds — including
after end-of-stream was consumed), and dropping it always issues the
synchronous kernel cancellation keyed by `tag`. -/
theorem C10_multishot_no_terminal_state (w : World) (i s t tok : Nat)
    (hh : listGet w.handles i =
      some { kind := HKind.multi, alive := true, st := HState.submitted s t }) :
    (∀ out w1, doPoll w i tok = some (out, w1) →
      listGet w1.handles i =
        some { kind := HKind.multi, alive := true, st := HState.submitted s t }) ∧
    (∀ w1, doDrop w i = some w1 → t ∈ w1.cancelLog) := by
  constructor
  · intro out w1 hpoll
    unfold doPoll at hpoll
    rw [hh] at hpoll
    simp only [Bool.true_eq_false, if_false] at hpoll
    cases hpop : MultishotStore.pop_result w.msStore s with
    | none => rw [hpop] at hpoll; simp at hpoll
    | some r =>
      rw [hpop] at hpoll
      obtain ⟨mr, ms1⟩ := r
      cases mr <;>
        · simp only [Option.some.injEq, Prod.mk.injEq] at hpoll
          rw [← hpoll.2]
          exact hh
  · intro w1 hdrop
    unfold doDrop at hdrop
    rw [hh] at hdrop
    simp only [Bool.true_eq_false, if_false] at hdrop
    cases hdr : MultishotStore.drop_result w.msStore s with
    | none => rw [hdr] at hdrop; simp at hdrop
    | some ms1 =>
      rw [hdr] at hdrop
      simp only [Option.some.injEq] at hdrop
      rw [← hdrop]
      exact List.mem_cons_self t _

/-- A world holding one multishot handle whose stream already reported
end-of-stream (slot `finished`, final completion drained). -/
def msFinishedWorld : World :=
  { pending := [none], osStore := [],
    msStore := [some { results := [], dropped := false, finished := true }],
    handles := [{ kind := HKind.multi, alive := true, st := HState.submitted 0 0 }],
    awaiting := [], cancelLog := [] }

/-- `msFinishedWorld` after dropping its handle: cancel logged, slot
removed (it was finished). -/
def msFinishedWorldDropped : World :=
  { pending := [none], osStore := [], msStore := [none],
    handles := [{ kind := HKind.multi, alive := false, st := HState.submitted 0 0 }],
    awaiting := [], cancelLog := [0] }

theorem C10_multishot_no_terminal_state_witness :
    listGet msFinishedWorld.handles 0 =
      some { kind := HKind.multi, alive := true, st := HState.submitted 0 0 } ∧
    doPoll msFinishedWorld 0 7 = some (PollOut.readyMulti none, msFinishedWorld) ∧
    listGet msFinishedWorld.handles 0 =
      some { kind := HKind.multi, alive := true, st := HState.submitted 0 0 } ∧
    doDrop msFinishedWorld 0 = some msFinishedWorldDropped ∧
    (0 : Nat) ∈ msFinishedWorldDropped.cancelLog :=
  ⟨rfl, rfl,
    (C10_multishot_no_terminal_state msFinishedWorld 0 0 0 7 rfl).1
      (PollOut.readyMulti none) msFinishedWorld rfl,
    rfl,
    (C10_multishot_no_terminal_state msFinishedWorld 0 0 0 7 rfl).2
      msFinishedWorldDropped rfl⟩

/-! ## Multishot stream consumption (claim C7) -/

/-- Characterisation of `MultishotUringIo::submit_or_get_result` in the
`Submitted` state on a slot with a queued value: dequeue it; the handle
state is not touched. -/
theorem doPoll_multi_submitted_cons (w : World) (i s t tok : Nat) (v : Int)
    (rest : List Int) (d f : Bool)
    (hh : listGet w.handles i =
      some { kind := HKind.multi, alive := true, st := HState.submitted s t })
    (hslot : slabGet w.msStore s =
      some { results := v :: rest, dropped := d, finished := f }) :
    doPoll w i tok =
      some (PollOut.readyMulti (some (reactor_value_to_result v)),
        { w with msStore :=
            slabSet w.msStore s (some { results := rest, dropped := d, finished := f }) }) := by
  simp [doPoll, hh, MultishotStore.pop_result, hslot]

/-- Characterisation of `MultishotUringIo::submit_or_get_result` in the
`Submitted` state on an empty slot: report end-of-stream or not-ready by
the `finished` flag; the world is unchanged. -/
theorem doPoll_multi_submitted_nil (w : World) (i s t tok : Nat) (d f : Bool)
    (hh : listGet w.handles i =
      some { kind := HKind.multi, alive := true, st := HState.submitted s t })
    (hslot : slabGet w.msStore s =
      some { results := [], dropped := d, finished := f }) :
    doPoll w i tok =
      if f then some (PollOut.readyMulti none, w)
      else some (PollOut.notReady, w) := by
  cases f <;>
    simp [doPoll, hh, MultishotStore.pop_result, hslot]

/-- Claim C7: a multishot slot that received the values `vs` in order and
was then marked finished yields, under successive polls of its (alive,
`Submitted`) handle, `ready(some v)` for each `v` of `vs` in arrival
order, and `ready(none)` on every poll thereafter (any number `m` of
further polls), each value converted by the result encoding. -/
theorem C7_multishot_stream (w : World) (i s t : Nat) (vs : List Int)
    (d : Bool) (m : Nat)
    (hh : listGet w.handles i =
      some { kind := HKind.multi, alive := true, st := HState.submitted s t })
    (hslot : slabGet w.msStore s =
      some { results := vs, dropped := d, finished := true }) :
    ∃ w1, runPolls (vs.length + m) w i =
      some (vs.map (fun v => PollOut.readyMulti (some (reactor_value_to_result v))) ++
            List.replicate m (PollOut.readyMulti none), w1) := by
  induction vs generalizing w with
  | nil =>
    induction m generalizing w with
    | zero => exact ⟨w, rfl⟩
    | succ k ihm =>
      have hstep := doPoll_multi_submitted_nil w i s t 0 d true hh hslot
      simp at hstep
      obtain ⟨w1, hrun⟩ := ihm w hh hslot
      simp only [List.length_nil, Nat.zero_add] at hrun
      refine ⟨w1, ?_⟩
      simp only [List.length_nil, Nat.zero_add]
      simp only [runPolls, hstep, hrun]
      simp [List.replicate_succ]
  | cons v rest ih =>
    have hstep := doPoll_multi_submitted_cons w i s t 0 v rest d true hh hslot
    set w2 : World :=
      { w with msStore :=
          slabSet w.msStore s (some { results := rest, dropped := d, finished := true }) } with hw2
    have hh2 : listGet w2.handles i =
        some { kind := HKind.multi, alive := true, st := HState.submitted s t } := hh
    have hslot2 : slabGet w2.msStore s =
        some { results := rest, dropped := d, finished := true } := by
      show slabGet (slabSet w.msStore s _) s = _
      exact slabGet_slabSet_self _ _ _ _ hslot
    obtain ⟨w1, hrun⟩ := ih w2 hh2 hslot2
    refine ⟨w1, ?_⟩
    have hlen : (v :: rest).length + m = (rest.length + m) + 1 := by
      simp [List.length_cons]
      omega
    rw [hlen]
    simp only [runPolls, hstep, hrun]
    simp

/-- A world holding one multishot handle whose slot queued the values
`[1, 2]` and is marked finished. -/
def msStreamWorld : World :=
  { pending := [none], osStore := [],
    msStore := [some { results := [1, 2], dropped := false, finished := true }],
    handles := [{ kind := HKind.multi, alive := true, st := HState.submitted 0 0 }],
    awaiting := [], cancelLog := [] }

theorem C7_multishot_stream_witness :
    listGet msStreamWorld.handles 0 =
      some { kind := HKind.multi, alive := true, st := HState.submitted 0 0 } ∧
    slabGet msStreamWorld.msStore 0 =
      some { results := [1, 2], dropped := false, finished := true } ∧
    ∃ w1, runPolls (([1, 2] : List Int).length + 2) msStreamWorld 0 =
      some (([1, 2] : List Int).map
              (fun v => PollOut.readyMulti (some (reactor_value_to_result v))) ++
            List.replicate 2 (PollOut.readyMulti none), w1) :=
  ⟨rfl, rfl, C7_multishot_stream msStreamWorld 0 0 0 [1, 2] false 2 rfl rfl⟩

/-! ## Reachability invariant

Every occupied result slot is accounted for: either an alive handle still
references it, or a completion that will retire it is still awaiting
drainage.  This is the backbone of the quiescence claim (C4) and of the
drop-cancel claim (C1). -/

/-- Invariant on a oneshot result slot: a `Pending` slot has an alive
`Submitted` oneshot handle and an awaiting pending entry; a `Set` slot has
an alive `Submitted` oneshot handle; a `Dropped` slot has an awaiting
pending entry (its completion will remove it). -/
def osSlotInv (w : World) (s : Nat) : Prop :=
  ∀ st, slabGet w.osStore s = some st →
    (st = ResultState.pending →
      (∃ i t2, listGet w.handles i =
        some { kind := HKind.oneshot, alive := true, st := HState.submitted s t2 }) ∧
      (∃ t2 o, slabGet w.pending t2 =
        some { assocObj := o, resultSlabIdx := s, kind := HKind.oneshot } ∧
        t2 ∈ w.awaiting)) ∧
    ((∃ v, st = ResultState.set v) →
      ∃ i t2, listGet w.handles i =
        some { kind := HKind.oneshot, alive := true, st := HState.submitted s t2 }) ∧
    (st = ResultState.dropped →
      ∃ t2 o, slabGet w.pending t2 =
        some { assocObj := o, resultSlabIdx := s, kind := HKind.oneshot } ∧
        t2 ∈ w.awaiting)

/-- Invariant on a multishot result slot: a dropped slot has an awaiting
pending entry (the cancellation's final completion will remove it); an
undropped slot has an alive `Submitted` multishot handle. -/
def msSlotInv (w : World) (s : Nat) : Prop :=
  ∀ m, slabGet w.msStore s = some m →
    (m.dropped = true →
      ∃ t2 o, slabGet w.pending t2 =
        some { assocObj := o, resultSlabIdx := s, kind := HKind.multi } ∧
        t2 ∈ w.awaiting) ∧
    (m.dropped = false →
      ∃ i t2, listGet w.handles i =
        some { kind := HKind.multi, alive := true, st := HState.submitted s t2 })

/-- Invariant linking an alive `Submitted` multishot handle to its slot:
the slot is present and not dropped, and while the stream is unfinished
the pending entry and the awaiting tag are still in place. -/
def handleLink (w : World) (i : Nat) : Prop :=
  ∀ s t2, listGet w.handles i =
      some { kind := HKind.multi, alive := true, st := HState.submitted s t2 } →
    ∃ m, slabGet w.msStore s = some m ∧ m.dropped = false ∧
      (m.finished = false →
        (∃ o, slabGet w.pending t2 =
          some { assocObj := o, resultSlabIdx := s, kind := HKind.multi }) ∧
        t2 ∈ w.awaiting)

/-- Distinct alive `Submitted` multishot handles own distinct slots. -/
def msInj (w : World) : Prop :=
  ∀ i1 i2 s1 s2 t1 t2,
    listGet w.handles i1 =
      some { kind := HKind.multi, alive := true, st := HState.submitted s1 t1 } →
    listGet w.handles i2 =
      some { kind := HKind.multi, alive := true, st := HState.submitted s2 t2 } →
    i1 ≠ i2 → s1 ≠ s2

/-- The reachability invariant. -/
def ReactorInv (w : World) : Prop :=
  (∀ s, osSlotInv w s) ∧ (∀ s, msSlotInv w s) ∧ (∀ i, handleLink w i) ∧ msInj w

theorem inv_initWorld : ReactorInv initWorld := by
  refine ⟨fun s st h => ?_, fun s m h => ?_, fun i s t2 h => ?_,
    fun i1 i2 s1 s2 t1 t2 h1 h2 _ => ?_⟩
  · simp [initWorld, slabGet] at h
  · simp [initWorld, slabGet] at h
  · simp [initWorld, listGet] at h
  · simp [initWorld, listGet] at h1

/-- Replacing the handle at index `i` does not disturb a lookup of a
different record at any index. -/
theorem listGet_listSet_keep {α : Type} (l : List α) (i i' : Nat) (r' x y : α)
    (hx : listGet l i = some x) (hy : listGet l i' = some y) (hne : y ≠ x) :
    listGet (listSet l i r') i' = some y := by
  rcases eq_or_ne i' i with h | h
  · subst h
    rw [hy] at hx
    injection hx with hx
    exact absurd hx hne
  · rw [listGet_listSet_ne l i i' r' h]
    exact hy

/-- `Inv` is preserved by handle creation (`new_oneshot_io` /
`new_multishot_io`). -/
theorem inv_newHandle (w : World) (k : HKind) (hInv : ReactorInv w) :
    ReactorInv { w with handles :=
      w.handles ++ [{ kind := k, alive := true, st := HState.hNew }] } := by
  obtain ⟨hos, hms, hlink, hinj⟩ := hInv
  refine ⟨fun s st h => ?_, fun s m h => ?_, fun i s t2 h => ?_,
    fun i1 i2 s1 s2 t1 t2 h1 h2 hne => ?_⟩
  · obtain ⟨c1, c2, c3⟩ := hos s st h
    refine ⟨fun hp => ?_, fun hv => ?_, fun hd => ?_⟩
    · obtain ⟨⟨i, t2, hh⟩, hpend⟩ := c1 hp
      exact ⟨⟨i, t2, listGet_append_of_some _ _ _ _ hh⟩, hpend⟩
    · obtain ⟨i, t2, hh⟩ := c2 hv
      exact ⟨i, t2, listGet_append_of_some _ _ _ _ hh⟩
    · exact c3 hd
  · obtain ⟨c1, c2⟩ := hms s m h
    refine ⟨c1, fun hd => ?_⟩
    obtain ⟨i, t2, hh⟩ := c2 hd
    exact ⟨i, t2, listGet_append_of_some _ _ _ _ hh⟩
  · rcases listGet_append_cases _ _ _ _ h with hold | hnew
    · obtain ⟨m, hm, hmd, hcond⟩ := hlink i s t2 hold
      exact ⟨m, hm, hmd, hcond⟩
    · simp at hnew
  · rcases listGet_append_cases _ _ _ _ h1 with hold1 | hnew1
    · rcases listGet_append_cases _ _ _ _ h2 with hold2 | hnew2
      · exact hinj i1 i2 s1 s2 t1 t2 hold1 hold2 hne
      · simp at hnew2
    · simp at hnew1

theorem slabGet_slabRemove_ne {V : Type} (l : Slab V) (i j : Nat) (h : j ≠ i) :
    slabGet (slabRemove l i) j = slabGet l j :=
  slabGet_slabSet_ne l i j none h

/-- `ReactorInv` is preserved by `submit_or_get_result` on any handle. -/
theorem inv_doPoll (w : World) (i tok : Nat) (out : PollOut) (w1 : World)
    (hpoll : doPoll w i tok = some (out, w1)) (hInv : ReactorInv w) :
    ReactorInv w1 := by
  obtain ⟨hos, hms, hlink, hinj⟩ := hInv
  cases hh : listGet w.handles i with
  | none =>
    unfold doPoll at hpoll
    rw [hh] at hpoll
    simp at hpoll
  | some hr =>
    obtain ⟨k, a, st0⟩ := hr
    cases a with
    | false =>
      unfold doPoll at hpoll
      rw [hh] at hpoll
      simp at hpoll
    | true =>
      cases st0 with
      | hNew =>
        cases k with
        | oneshot =>
          unfold doPoll at hpoll
          rw [hh] at hpoll
          simp only [Bool.true_eq_false, if_false, World.submit_io,
            Option.some.injEq, Prod.mk.injEq] at hpoll
          obtain ⟨-, hw1⟩ := hpoll
          set sl := slabInsert w.osStore ResultState.pending with hsl
          set pd := slabInsert w.pending
            { assocObj := tok, resultSlabIdx := sl.2, kind := HKind.oneshot } with hpd
          have hOs : w1.osStore = sl.1 := by rw [← hw1]; all_goals rfl
          have hPd : w1.pending = pd.1 := by rw [← hw1]; all_goals rfl
          have hMs : w1.msStore = w.msStore := by rw [← hw1]; all_goals rfl
          have hHd : w1.handles = listSet w.handles i
              { kind := HKind.oneshot, alive := true,
                st := HState.submitted sl.2 pd.2 } := by rw [← hw1]; all_goals rfl; all_goals rfl
          have hAw : w1.awaiting = pd.2 :: w.awaiting := by rw [← hw1]; all_goals rfl
          have f1 : slabGet sl.1 sl.2 = some ResultState.pending :=
            slabGet_slabInsert_self _ _
          have f3 : ∀ j, j ≠ sl.2 → slabGet sl.1 j = slabGet w.osStore j :=
            fun j hj => slabGet_slabInsert_ne _ _ j hj
          have g1 : slabGet pd.1 pd.2 =
              some { assocObj := tok, resultSlabIdx := sl.2, kind := HKind.oneshot } :=
            slabGet_slabInsert_self _ _
          have g2 : slabGet w.pending pd.2 = none := slabInsert_fresh _ _
          have g3 : ∀ j, j ≠ pd.2 → slabGet pd.1 j = slabGet w.pending j :=
            fun j hj => slabGet_slabInsert_ne _ _ j hj
          refine ⟨fun s st hst => ?_, fun s m hm => ?_, fun i2 s t2 h2 => ?_,
            fun i1 i2 s1 s2 t1 t2 h1 h2 hne12 => ?_⟩
          · rw [hOs] at hst
            rcases eq_or_ne s sl.2 with hs | hs
            · subst hs
              rw [f1] at hst
              injection hst with hst
              subst hst
              refine ⟨fun _ => ⟨⟨i, pd.2, ?_⟩, ⟨pd.2, tok, ?_, ?_⟩⟩,
                fun hv => ?_, fun hd => ?_⟩
              · rw [hHd]
                exact listGet_listSet_self _ _ _ _ hh
              · rw [hPd]
                exact g1
              · rw [hAw]
                exact List.mem_cons_self _ _
              · obtain ⟨v, hv⟩ := hv
                exact ResultState.noConfusion hv
              · exact ResultState.noConfusion hd
            · rw [f3 s hs] at hst
              obtain ⟨c1, c2, c3⟩ := hos s st hst
              refine ⟨fun hp => ?_, fun hv => ?_, fun hd => ?_⟩
              · obtain ⟨⟨i', t2, hh'⟩, ⟨t2', o, hp', hmem'⟩⟩ := c1 hp
                have ht : t2' ≠ pd.2 := by
                  intro he
                  rw [he, g2] at hp'
                  exact Option.noConfusion hp'
                refine ⟨⟨i', t2, ?_⟩, ⟨t2', o, ?_, ?_⟩⟩
                · rw [hHd]
                  exact listGet_listSet_keep _ _ _ _ _ _ hh hh' (by simp)
                · rw [hPd, g3 t2' ht]
                  exact hp'
                · rw [hAw]
                  exact List.mem_cons_of_mem _ hmem'
              · obtain ⟨i', t2, hh'⟩ := c2 hv
                refine ⟨i', t2, ?_⟩
                rw [hHd]
                exact listGet_listSet_keep _ _ _ _ _ _ hh hh' (by simp)
              · obtain ⟨t2', o, hp', hmem'⟩ := c3 hd
                have ht : t2' ≠ pd.2 := by
                  intro he
                  rw [he, g2] at hp'
                  exact Option.noConfusion hp'
                refine ⟨t2', o, ?_, ?_⟩
                · rw [hPd, g3 t2' ht]
                  exact hp'
                · rw [hAw]
                  exact List.mem_cons_of_mem _ hmem'
          · rw [hMs] at hm
            obtain ⟨c1, c2⟩ := hms s m hm
            refine ⟨fun hd => ?_, fun hd => ?_⟩
            · obtain ⟨t2', o, hp', hmem'⟩ := c1 hd
              have ht : t2' ≠ pd.2 := by
                intro he
                rw [he, g2] at hp'
                exact Option.noConfusion hp'
              refine ⟨t2', o, ?_, ?_⟩
              · rw [hPd, g3 t2' ht]
                exact hp'
              · rw [hAw]
                exact List.mem_cons_of_mem _ hmem'
            · obtain ⟨i', t2, hh'⟩ := c2 hd
              refine ⟨i', t2, ?_⟩
              rw [hHd]
              exact listGet_listSet_keep _ _ _ _ _ _ hh hh' (by simp)
          · rw [hHd] at h2
            rcases eq_or_ne i2 i with hi | hi
            · subst hi
              rw [listGet_listSet_self _ _ _ _ hh] at h2
              simp at h2
            · rw [listGet_listSet_ne _ _ _ _ hi] at h2
              obtain ⟨m, hm, hmd, hcond⟩ := hlink i2 s t2 h2
              refine ⟨m, ?_, hmd, fun hf => ?_⟩
              · rw [hMs]
                exact hm
              · obtain ⟨⟨o, hp'⟩, hmem'⟩ := hcond hf
                have ht : t2 ≠ pd.2 := by
                  intro he
                  rw [he, g2] at hp'
                  exact Option.noConfusion hp'
                refine ⟨⟨o, ?_⟩, ?_⟩
                · rw [hPd, g3 t2 ht]
                  exact hp'
                · rw [hAw]
                  exact List.mem_cons_of_mem _ hmem'
          · rw [hHd] at h1 h2
            rcases eq_or_ne i1 i with hi1 | hi1
            · subst hi1
              rw [listGet_listSet_self _ _ _ _ hh] at h1
              simp at h1
            · rw [listGet_listSet_ne _ _ _ _ hi1] at h1
              rcases eq_or_ne i2 i with hi2 | hi2
              · subst hi2
                rw [listGet_listSet_self _ _ _ _ hh] at h2
                simp at h2
              · rw [listGet_listSet_ne _ _ _ _ hi2] at h2
                exact hinj i1 i2 s1 s2 t1 t2 h1 h2 hne12
        | multi =>
          unfold doPoll at hpoll
          rw [hh] at hpoll
          simp only [Bool.true_eq_false, if_false, World.submit_io,
            Option.some.injEq, Prod.mk.injEq] at hpoll
          obtain ⟨-, hw1⟩ := hpoll
          set sl := slabInsert w.msStore
            { results := [], dropped := false, finished := false } with hsl
          set pd := slabInsert w.pending
            { assocObj := tok, resultSlabIdx := sl.2, kind := HKind.multi } with hpd
          have hOs : w1.osStore = w.osStore := by rw [← hw1]; all_goals rfl
          have hPd : w1.pending = pd.1 := by rw [← hw1]; all_goals rfl
          have hMs : w1.msStore = sl.1 := by rw [← hw1]; all_goals rfl
          have hHd : w1.handles = listSet w.handles i
              { kind := HKind.multi, alive := true,
                st := HState.submitted sl.2 pd.2 } := by rw [← hw1]; all_goals rfl; all_goals rfl
          have hAw : w1.awaiting = pd.2 :: w.awaiting := by rw [← hw1]; all_goals rfl
          have f1 : slabGet sl.1 sl.2 =
              some { results := [], dropped := false, finished := false } :=
            slabGet_slabInsert_self _ _
          have f2 : slabGet w.msStore sl.2 = none := slabInsert_fresh _ _
          have f3 : ∀ j, j ≠ sl.2 → slabGet sl.1 j = slabGet w.msStore j :=
            fun j hj => slabGet_slabInsert_ne _ _ j hj
          have g1 : slabGet pd.1 pd.2 =
              some { assocObj := tok, resultSlabIdx := sl.2, kind := HKind.multi } :=
            slabGet_slabInsert_self _ _
          have g2 : slabGet w.pending pd.2 = none := slabInsert_fresh _ _
          have g3 : ∀ j, j ≠ pd.2 → slabGet pd.1 j = slabGet w.pending j :=
            fun j hj => slabGet_slabInsert_ne _ _ j hj
          refine ⟨fun s st hst => ?_, fun s m hm => ?_, fun i2 s t2 h2 => ?_,
            fun i1 i2 s1 s2 t1 t2 h1 h2 hne12 => ?_⟩
          · rw [hOs] at hst
            obtain ⟨c1, c2, c3⟩ := hos s st hst
            refine ⟨fun hp => ?_, fun hv => ?_, fun hd => ?_⟩
            · obtain ⟨⟨i', t2, hh'⟩, ⟨t2', o, hp', hmem'⟩⟩ := c1 hp
              have ht : t2' ≠ pd.2 := by
                intro he
                rw [he, g2] at hp'
                exact Option.noConfusion hp'
              refine ⟨⟨i', t2, ?_⟩, ⟨t2', o, ?_, ?_⟩⟩
              · rw [hHd]
                exact listGet_listSet_keep _ _ _ _ _ _ hh hh' (by simp)
              · rw [hPd, g3 t2' ht]
                exact hp'
              · rw [hAw]
                exact List.mem_cons_of_mem _ hmem'
            · obtain ⟨i', t2, hh'⟩ := c2 hv
              refine ⟨i', t2, ?_⟩
              rw [hHd]
              exact listGet_listSet_keep _ _ _ _ _ _ hh hh' (by simp)
            · obtain ⟨t2', o, hp', hmem'⟩ := c3 hd
              have ht : t2' ≠ pd.2 := by
                intro he
                rw [he, g2] at hp'
                exact Option.noConfusion hp'
              refine ⟨t2', o, ?_, ?_⟩
              · rw [hPd, g3 t2' ht]
                exact hp'
              · rw [hAw]
                exact List.mem_cons_of_mem _ hmem'
          · rw [hMs] at hm
            rcases eq_or_ne s sl.2 with hs | hs
            · subst hs
              rw [f1] at hm
              injection hm with hm
              subst hm
              refine ⟨fun hd => ?_, fun _ => ⟨i, pd.2, ?_⟩⟩
              · simp at hd
              · rw [hHd]
                exact listGet_listSet_self _ _ _ _ hh
            · rw [f3 s hs] at hm
              obtain ⟨c1, c2⟩ := hms s m hm
              refine ⟨fun hd => ?_, fun hd => ?_⟩
              · obtain ⟨t2', o, hp', hmem'⟩ := c1 hd
                have ht : t2' ≠ pd.2 := by
                  intro he
                  rw [he, g2] at hp'
                  exact Option.noConfusion hp'
                refine ⟨t2', o, ?_, ?_⟩
                · rw [hPd, g3 t2' ht]
                  exact hp'
                · rw [hAw]
                  exact List.mem_cons_of_mem _ hmem'
              · obtain ⟨i', t2, hh'⟩ := c2 hd
                refine ⟨i', t2, ?_⟩
                rw [hHd]
                exact listGet_listSet_keep _ _ _ _ _ _ hh hh' (by simp)
          · rw [hHd] at h2
            rcases eq_or_ne i2 i with hi | hi
            · subst hi
              rw [listGet_listSet_self _ _ _ _ hh] at h2
              simp only [Option.some.injEq, Handle.mk.injEq, HState.submitted.injEq,
                true_and] at h2
              obtain ⟨hs2, ht2⟩ := h2
              subst hs2
              subst ht2
              refine ⟨{ results := [], dropped := false, finished := false }, ?_, rfl,
                fun _ => ⟨⟨tok, ?_⟩, ?_⟩⟩
              · rw [hMs]
                exact f1
              · rw [hPd]
                exact g1
              · rw [hAw]
                exact List.mem_cons_self _ _
            · rw [listGet_listSet_ne _ _ _ _ hi] at h2
              obtain ⟨m, hm, hmd, hcond⟩ := hlink i2 s t2 h2
              have hss : s ≠ sl.2 := by
                intro he
                rw [he, f2] at hm
                exact Option.noConfusion hm
              refine ⟨m, ?_, hmd, fun hf => ?_⟩
              · rw [hMs, f3 s hss]
                exact hm
              · obtain ⟨⟨o, hp'⟩, hmem'⟩ := hcond hf
                have ht : t2 ≠ pd.2 := by
                  intro he
                  rw [he, g2] at hp'
                  exact Option.noConfusion hp'
                refine ⟨⟨o, ?_⟩, ?_⟩
                · rw [hPd, g3 t2 ht]
                  exact hp'
                · rw [hAw]
                  exact List.mem_cons_of_mem _ hmem'
          · rw [hHd] at h1 h2
            rcases eq_or_ne i1 i with hi1 | hi1
            · rw [hi1, listGet_listSet_self _ _ _ _ hh] at h1
              simp only [Option.some.injEq, Handle.mk.injEq, HState.submitted.injEq,
                true_and] at h1
              obtain ⟨hs1, -⟩ := h1
              rcases eq_or_ne i2 i with hi2 | hi2
              · exact absurd (hi1.trans hi2.symm) hne12
              · rw [listGet_listSet_ne _ _ _ _ hi2] at h2
                obtain ⟨m, hm, -, -⟩ := hlink i2 s2 t2 h2
                intro he
                rw [← he, ← hs1, f2] at hm
                exact Option.noConfusion hm
            · rw [listGet_listSet_ne _ _ _ _ hi1] at h1
              rcases eq_or_ne i2 i with hi2 | hi2
              · rw [hi2, listGet_listSet_self _ _ _ _ hh] at h2
                simp only [Option.some.injEq, Handle.mk.injEq, HState.submitted.injEq,
                  true_and] at h2
                obtain ⟨hs2, -⟩ := h2
                obtain ⟨m, hm, -, -⟩ := hlink i1 s1 t1 h1
                intro he
                rw [he, ← hs2, f2] at hm
                exact Option.noConfusion hm
              · rw [listGet_listSet_ne _ _ _ _ hi2] at h2
                exact hinj i1 i2 s1 s2 t1 t2 h1 h2 hne12
      | submitted slot t0 =>
        cases k with
        | oneshot =>
          unfold doPoll at hpoll
          rw [hh] at hpoll
          simp only [Bool.true_eq_false, if_false] at hpoll
          cases hss : slabGet w.osStore slot with
          | none => simp [OneshotStore.get_result, hss] at hpoll
          | some rs =>
            cases rs with
            | pending =>
              simp only [OneshotStore.get_result, hss, Option.some.injEq,
                Prod.mk.injEq] at hpoll
              obtain ⟨-, hw1⟩ := hpoll
              exact hw1 ▸ ⟨hos, hms, hlink, hinj⟩
            | dropped => simp [OneshotStore.get_result, hss] at hpoll
            | set v =>
              simp only [OneshotStore.get_result, hss, Option.some.injEq,
                Prod.mk.injEq] at hpoll
              obtain ⟨-, hw1⟩ := hpoll
              have hOs : w1.osStore = slabRemove w.osStore slot := by rw [← hw1]; all_goals rfl
              have hPd : w1.pending = w.pending := by rw [← hw1]; all_goals rfl
              have hMs : w1.msStore = w.msStore := by rw [← hw1]; all_goals rfl
              have hHd : w1.handles = listSet w.handles i
                  { kind := HKind.oneshot, alive := true,
                    st := HState.finishedWith v } := by rw [← hw1]; all_goals rfl; all_goals rfl
              have hAw : w1.awaiting = w.awaiting := by rw [← hw1]; all_goals rfl
              refine ⟨fun s st hst => ?_, fun s m hm => ?_, fun i2 s t2 h2 => ?_,
                fun i1 i2 s1 s2 t1 t2 h1 h2 hne12 => ?_⟩
              · rw [hOs] at hst
                rcases eq_or_ne s slot with hs | hs
                · subst hs
                  rw [slabGet_slabRemove_self _ _ _ hss] at hst
                  exact Option.noConfusion hst
                · rw [slabGet_slabRemove_ne _ _ _ hs] at hst
                  obtain ⟨c1, c2, c3⟩ := hos s st hst
                  refine ⟨fun hp => ?_, fun hv => ?_, fun hd => ?_⟩
                  · obtain ⟨⟨i', t2, hh'⟩, hpen⟩ := c1 hp
                    refine ⟨⟨i', t2, ?_⟩, ?_⟩
                    · rw [hHd]
                      exact listGet_listSet_keep _ _ _ _ _ _ hh hh' (by simp [hs])
                    · rw [hPd, hAw]
                      exact hpen
                  · obtain ⟨i', t2, hh'⟩ := c2 hv
                    refine ⟨i', t2, ?_⟩
                    rw [hHd]
                    exact listGet_listSet_keep _ _ _ _ _ _ hh hh' (by simp [hs])
                  · rw [hPd, hAw]
                    exact c3 hd
              · rw [hMs] at hm
                obtain ⟨c1, c2⟩ := hms s m hm
                refine ⟨fun hd => ?_, fun hd => ?_⟩
                · rw [hPd, hAw]
                  exact c1 hd
                · obtain ⟨i', t2, hh'⟩ := c2 hd
                  refine ⟨i', t2, ?_⟩
                  rw [hHd]
                  exact listGet_listSet_keep _ _ _ _ _ _ hh hh' (by simp)
              · rw [hHd] at h2
                rcases eq_or_ne i2 i with hi | hi
                · subst hi
                  rw [listGet_listSet_self _ _ _ _ hh] at h2
                  simp at h2
                · rw [listGet_listSet_ne _ _ _ _ hi] at h2
                  obtain ⟨m, hm, hmd, hcond⟩ := hlink i2 s t2 h2
                  refine ⟨m, ?_, hmd, fun hf => ?_⟩
                  · rw [hMs]
                    exact hm
                  · rw [hPd, hAw]
                    exact hcond hf
              · rw [hHd] at h1 h2
                rcases eq_or_ne i1 i with hi1 | hi1
                · subst hi1
                  rw [listGet_listSet_self _ _ _ _ hh] at h1
                  simp at h1
                · rw [listGet_listSet_ne _ _ _ _ hi1] at h1
                  rcases eq_or_ne i2 i with hi2 | hi2
                  · subst hi2
                    rw [listGet_listSet_self _ _ _ _ hh] at h2
                    simp at h2
                  · rw [listGet_listSet_ne _ _ _ _ hi2] at h2
                    exact hinj i1 i2 s1 s2 t1 t2 h1 h2 hne12
        | multi =>
          cases hss : slabGet w.msStore slot with
          | none =>
            unfold doPoll at hpoll
            rw [hh] at hpoll
            simp only [Bool.true_eq_false, if_false] at hpoll
            simp [MultishotStore.pop_result, hss] at hpoll
          | some m =>
            obtain ⟨q, dflag, fflag⟩ := m
            cases q with
            | nil =>
              have hchar := doPoll_multi_submitted_nil w i slot t0 tok dflag fflag hh hss
              rw [hchar] at hpoll
              cases fflag with
              | true =>
                rw [if_pos rfl] at hpoll
                simp only [Option.some.injEq, Prod.mk.injEq] at hpoll
                obtain ⟨-, hw1⟩ := hpoll
                exact hw1 ▸ ⟨hos, hms, hlink, hinj⟩
              | false =>
                rw [if_neg (by simp)] at hpoll
                simp only [Option.some.injEq, Prod.mk.injEq] at hpoll
                obtain ⟨-, hw1⟩ := hpoll
                exact hw1 ▸ ⟨hos, hms, hlink, hinj⟩
            | cons v rest =>
              have hchar := doPoll_multi_submitted_cons w i slot t0 tok v rest dflag fflag
                hh hss
              rw [hchar] at hpoll
              simp only [Option.some.injEq, Prod.mk.injEq] at hpoll
              obtain ⟨-, hw1⟩ := hpoll
              have hOs : w1.osStore = w.osStore := by rw [← hw1]; all_goals rfl
              have hPd : w1.pending = w.pending := by rw [← hw1]; all_goals rfl
              have hMs : w1.msStore = slabSet w.msStore slot
                  (some { results := rest, dropped := dflag, finished := fflag }) := by
                rw [← hw1]; all_goals rfl
              have hHd : w1.handles = w.handles := by rw [← hw1]; all_goals rfl
              have hAw : w1.awaiting = w.awaiting := by rw [← hw1]; all_goals rfl
              refine ⟨fun s st hst => ?_, fun s m2 hm2 => ?_, fun i2 s t2 h2 => ?_,
                fun i1 i2 s1 s2 t1 t2 h1 h2 hne12 => ?_⟩
              · rw [hOs] at hst
                rw [hHd, hPd, hAw]
                exact hos s st hst
              · rw [hMs] at hm2
                rcases eq_or_ne s slot with hs | hs
                · subst hs
                  rw [slabGet_slabSet_self _ _ _ _ hss] at hm2
                  injection hm2 with hm2
                  subst hm2
                  obtain ⟨c1, c2⟩ := hms s _ hss
                  refine ⟨fun hd => ?_, fun hd => ?_⟩
                  · rw [hPd, hAw]
                    exact c1 hd
                  · rw [hHd]
                    exact c2 hd
                · rw [slabGet_slabSet_ne _ _ _ _ hs] at hm2
                  obtain ⟨c1, c2⟩ := hms s m2 hm2
                  refine ⟨fun hd => ?_, fun hd => ?_⟩
                  · rw [hPd, hAw]
                    exact c1 hd
                  · rw [hHd]
                    exact c2 hd
              · rw [hHd] at h2
                obtain ⟨m0, hm0, hmd0, hcond0⟩ := hlink i2 s t2 h2
                rcases eq_or_ne s slot with hs | hs
                · subst hs
                  rw [hss] at hm0
                  injection hm0 with hm0
                  subst hm0
                  refine ⟨{ results := rest, dropped := dflag, finished := fflag }, ?_,
                    hmd0, fun hf => ?_⟩
                  · rw [hMs]
                    exact slabGet_slabSet_self _ _ _ _ hss
                  · rw [hPd, hAw]
                    exact hcond0 hf
                · refine ⟨m0, ?_, hmd0, fun hf => ?_⟩
                  · rw [hMs, slabGet_slabSet_ne _ _ _ _ hs]
                    exact hm0
                  · rw [hPd, hAw]
                    exact hcond0 hf
              · rw [hHd] at h1 h2
                exact hinj i1 i2 s1 s2 t1 t2 h1 h2 hne12
      | finishedWith v =>
        cases k with
        | oneshot =>
          unfold doPoll at hpoll
          rw [hh] at hpoll
          simp only [Bool.true_eq_false, if_false, Option.some.injEq,
            Prod.mk.injEq] at hpoll
          obtain ⟨-, hw1⟩ := hpoll
          exact hw1 ▸ ⟨hos, hms, hlink, hinj⟩
        | multi =>
          unfold doPoll at hpoll
          rw [hh] at hpoll
          simp at hpoll

/-- Killing (dropping) a handle that is not in the `Submitted` state
touches no store and preserves the invariant. -/
theorem inv_killHandle (w : World) (i : Nat) (k : HKind) (st0 : HState)
    (hh : listGet w.handles i = some { kind := k, alive := true, st := st0 })
    (hnotsub : ∀ s t, st0 ≠ HState.submitted s t)
    (hInv : ReactorInv w) :
    ReactorInv { w with
      handles := listSet w.handles i { kind := k, alive := false, st := st0 } } := by
  obtain ⟨hos, hms, hlink, hinj⟩ := hInv
  have keep : ∀ (i' : Nat) (k2 : HKind) (s t2 : Nat),
      listGet w.handles i' =
        some { kind := k2, alive := true, st := HState.submitted s t2 } →
      listGet (listSet w.handles i { kind := k, alive := false, st := st0 }) i' =
        some { kind := k2, alive := true, st := HState.submitted s t2 } := by
    intro i' k2 s t2 hy
    refine listGet_listSet_keep _ _ _ _ _ _ hh hy ?_
    intro heq
    injection heq with h1 h2 h3
    exact hnotsub s t2 h3.symm
  refine ⟨fun s st hst => ?_, fun s m hm => ?_, fun i2 s t2 h2 => ?_,
    fun i1 i2 s1 s2 t1 t2 h1 h2 hne12 => ?_⟩
  · obtain ⟨c1, c2, c3⟩ := hos s st hst
    refine ⟨fun hp => ?_, fun hv => ?_, fun hd => ?_⟩
    · obtain ⟨⟨i', t2, hh'⟩, hpen⟩ := c1 hp
      exact ⟨⟨i', t2, keep i' _ s t2 hh'⟩, hpen⟩
    · obtain ⟨i', t2, hh'⟩ := c2 hv
      exact ⟨i', t2, keep i' _ s t2 hh'⟩
    · exact c3 hd
  · obtain ⟨c1, c2⟩ := hms s m hm
    refine ⟨c1, fun hd => ?_⟩
    obtain ⟨i', t2, hh'⟩ := c2 hd
    exact ⟨i', t2, keep i' _ s t2 hh'⟩
  · rcases eq_or_ne i2 i with hi | hi
    · rw [hi, listGet_listSet_self _ _ _ _ hh] at h2
      simp at h2
    · rw [listGet_listSet_ne _ _ _ _ hi] at h2
      exact hlink i2 s t2 h2
  · rcases eq_or_ne i1 i with hi1 | hi1
    · rw [hi1, listGet_listSet_self _ _ _ _ hh] at h1
      simp at h1
    · rw [listGet_listSet_ne _ _ _ _ hi1] at h1
      rcases eq_or_ne i2 i with hi2 | hi2
      · rw [hi2, listGet_listSet_self _ _ _ _ hh] at h2
        simp at h2
      · rw [listGet_listSet_ne _ _ _ _ hi2] at h2
        exact hinj i1 i2 s1 s2 t1 t2 h1 h2 hne12

/-- `ReactorInv` is preserved by handle drop. -/
theorem inv_doDrop (w : World) (i : Nat) (w1 : World)
    (hdrop : doDrop w i = some w1) (hInv : ReactorInv w) :
    ReactorInv w1 := by
  have hInv0 := hInv
  obtain ⟨hos, hms, hlink, hinj⟩ := hInv
  cases hh : listGet w.handles i with
  | none =>
    unfold doDrop at hdrop
    rw [hh] at hdrop
    simp at hdrop
  | some hr =>
    obtain ⟨k, a, st0⟩ := hr
    cases a with
    | false =>
      unfold doDrop at hdrop
      rw [hh] at hdrop
      simp at hdrop
    | true =>
      cases st0 with
      | hNew =>
        unfold doDrop at hdrop
        rw [hh] at hdrop
        cases k <;>
          · simp only [Bool.true_eq_false, if_false, Option.some.injEq] at hdrop
            exact hdrop ▸ inv_killHandle w i _ HState.hNew hh (by intro s t h; cases h) hInv0
      | finishedWith v =>
        unfold doDrop at hdrop
        rw [hh] at hdrop
        cases k <;>
          · simp only [Bool.true_eq_false, if_false, Option.some.injEq] at hdrop
            exact hdrop ▸ inv_killHandle w i _ (HState.finishedWith v) hh
              (by intro s t h; cases h) hInv0
      | submitted slot t0 =>
        cases k with
        | oneshot =>
          unfold doDrop at hdrop
          rw [hh] at hdrop
          simp only [Bool.true_eq_false, if_false] at hdrop
          cases hss : slabGet w.osStore slot with
          | none => simp [OneshotStore.drop_result, hss] at hdrop
          | some rs =>
            have keep1 : ∀ (i' : Nat) (k2 : HKind) (s t2 : Nat), s ≠ slot →
                listGet w.handles i' =
                  some { kind := k2, alive := true, st := HState.submitted s t2 } →
                listGet (listSet w.handles i
                    { kind := HKind.oneshot, alive := false,
                      st := HState.submitted slot t0 }) i' =
                  some { kind := k2, alive := true, st := HState.submitted s t2 } := by
              intro i' k2 s t2 hs hy
              refine listGet_listSet_keep _ _ _ _ _ _ hh hy ?_
              intro heq
              injection heq with h1 h2 h3
              injection h3 with h4 h5
              exact hs h4
            have keep2 : ∀ (i' : Nat) (s t2 : Nat),
                listGet w.handles i' =
                  some { kind := HKind.multi, alive := true, st := HState.submitted s t2 } →
                listGet (listSet w.handles i
                    { kind := HKind.oneshot, alive := false,
                      st := HState.submitted slot t0 }) i' =
                  some { kind := HKind.multi, alive := true, st := HState.submitted s t2 } := by
              intro i' s t2 hy
              exact listGet_listSet_keep _ _ _ _ _ _ hh hy (by simp)
            cases rs with
            | pending =>
              simp only [OneshotStore.drop_result, hss, Option.some.injEq] at hdrop
              have hOs : w1.osStore = slabSet w.osStore slot (some ResultState.dropped) := by
                rw [← hdrop]
              have hPd : w1.pending = w.pending := by rw [← hdrop]
              have hMs : w1.msStore = w.msStore := by rw [← hdrop]
              have hHd : w1.handles = listSet w.handles i
                  { kind := HKind.oneshot, alive := false,
                    st := HState.submitted slot t0 } := by rw [← hdrop]; all_goals rfl
              have hAw : w1.awaiting = w.awaiting := by rw [← hdrop]
              refine ⟨fun s st hst => ?_, fun s m hm => ?_, fun i2 s t2 h2 => ?_,
                fun i1 i2 s1 s2 t1 t2 h1 h2 hne12 => ?_⟩
              · rw [hOs] at hst
                rcases eq_or_ne s slot with hs | hs
                · subst hs
                  rw [slabGet_slabSet_self _ _ _ _ hss] at hst
                  injection hst with hst
                  subst hst
                  obtain ⟨c1, c2, c3⟩ := hos s ResultState.pending hss
                  refine ⟨fun hp => ?_, fun hv => ?_, fun hd => ?_⟩
                  · exact ResultState.noConfusion hp
                  · obtain ⟨v, hv⟩ := hv
                    exact ResultState.noConfusion hv
                  · obtain ⟨-, hpen⟩ := c1 rfl
                    rw [hPd, hAw]
                    exact hpen
                · rw [slabGet_slabSet_ne _ _ _ _ hs] at hst
                  obtain ⟨c1, c2, c3⟩ := hos s st hst
                  refine ⟨fun hp => ?_, fun hv => ?_, fun hd => ?_⟩
                  · obtain ⟨⟨i', t2, hh'⟩, hpen⟩ := c1 hp
                    refine ⟨⟨i', t2, ?_⟩, ?_⟩
                    · rw [hHd]
                      exact keep1 i' _ s t2 hs hh'
                    · rw [hPd, hAw]
                      exact hpen
                  · obtain ⟨i', t2, hh'⟩ := c2 hv
                    refine ⟨i', t2, ?_⟩
                    rw [hHd]
                    exact keep1 i' _ s t2 hs hh'
                  · rw [hPd, hAw]
                    exact c3 hd
              · rw [hMs] at hm
                obtain ⟨c1, c2⟩ := hms s m hm
                refine ⟨fun hd => ?_, fun hd => ?_⟩
                · rw [hPd, hAw]
                  exact c1 hd
                · obtain ⟨i', t2, hh'⟩ := c2 hd
                  refine ⟨i', t2, ?_⟩
                  rw [hHd]
                  exact keep2 i' s t2 hh'
              · rw [hHd] at h2
                rcases eq_or_ne i2 i with hi | hi
                · rw [hi, listGet_listSet_self _ _ _ _ hh] at h2
                  simp at h2
                · rw [listGet_listSet_ne _ _ _ _ hi] at h2
                  obtain ⟨m, hm, hmd, hcond⟩ := hlink i2 s t2 h2
                  refine ⟨m, ?_, hmd, fun hf => ?_⟩
                  · rw [hMs]
                    exact hm
                  · rw [hPd, hAw]
                    exact hcond hf
              · rw [hHd] at h1 h2
                rcases eq_or_ne i1 i with hi1 | hi1
                · rw [hi1, listGet_listSet_self _ _ _ _ hh] at h1
                  simp at h1
                · rw [listGet_listSet_ne _ _ _ _ hi1] at h1
                  rcases eq_or_ne i2 i with hi2 | hi2
                  · rw [hi2, listGet_listSet_self _ _ _ _ hh] at h2
                    simp at h2
                  · rw [listGet_listSet_ne _ _ _ _ hi2] at h2
                    exact hinj i1 i2 s1 s2 t1 t2 h1 h2 hne12
            | set v =>
              simp only [OneshotStore.drop_result, hss, Option.some.injEq] at hdrop
              have hOs : w1.osStore = slabRemove w.osStore slot := by rw [← hdrop]
              have hPd : w1.pending = w.pending := by rw [← hdrop]
              have hMs : w1.msStore = w.msStore := by rw [← hdrop]
              have hHd : w1.handles = listSet w.handles i
                  { kind := HKind.oneshot, alive := false,
                    st := HState.submitted slot t0 } := by rw [← hdrop]; all_goals rfl
              have hAw : w1.awaiting = w.awaiting := by rw [← hdrop]
              refine ⟨fun s st hst => ?_, fun s m hm => ?_, fun i2 s t2 h2 => ?_,
                fun i1 i2 s1 s2 t1 t2 h1 h2 hne12 => ?_⟩
              · rw [hOs] at hst
                rcases eq_or_ne s slot with hs | hs
                · subst hs
                  rw [slabGet_slabRemove_self _ _ _ hss] at hst
                  exact Option.noConfusion hst
                · rw [slabGet_slabRemove_ne _ _ _ hs] at hst
                  obtain ⟨c1, c2, c3⟩ := hos s st hst
                  refine ⟨fun hp => ?_, fun hv => ?_, fun hd => ?_⟩
                  · obtain ⟨⟨i', t2, hh'⟩, hpen⟩ := c1 hp
                    refine ⟨⟨i', t2, ?_⟩, ?_⟩
                    · rw [hHd]
                      exact keep1 i' _ s t2 hs hh'
                    · rw [hPd, hAw]
                      exact hpen
                  · obtain ⟨i', t2, hh'⟩ := c2 hv
                    refine ⟨i', t2, ?_⟩
                    rw [hHd]
                    exact keep1 i' _ s t2 hs hh'
                  · rw [hPd, hAw]
                    exact c3 hd
              · rw [hMs] at hm
                obtain ⟨c1, c2⟩ := hms s m hm
                refine ⟨fun hd => ?_, fun hd => ?_⟩
                · rw [hPd, hAw]
                  exact c1 hd
                · obtain ⟨i', t2, hh'⟩ := c2 hd
                  refine ⟨i', t2, ?_⟩
                  rw [hHd]
                  exact keep2 i' s t2 hh'
              · rw [hHd] at h2
                rcases eq_or_ne i2 i with hi | hi
                · rw [hi, listGet_listSet_self _ _ _ _ hh] at h2
                  simp at h2
                · rw [listGet_listSet_ne _ _ _ _ hi] at h2
                  obtain ⟨m, hm, hmd, hcond⟩ := hlink i2 s t2 h2
                  refine ⟨m, ?_, hmd, fun hf => ?_⟩
                  · rw [hMs]
                    exact hm
                  · rw [hPd, hAw]
                    exact hcond hf
              · rw [hHd] at h1 h2
                rcases eq_or_ne i1 i with hi1 | hi1
                · rw [hi1, listGet_listSet_self _ _ _ _ hh] at h1
                  simp at h1
                · rw [listGet_listSet_ne _ _ _ _ hi1] at h1
                  rcases eq_or_ne i2 i with hi2 | hi2
                  · rw [hi2, listGet_listSet_self _ _ _ _ hh] at h2
                    simp at h2
                  · rw [listGet_listSet_ne _ _ _ _ hi2] at h2
                    exact hinj i1 i2 s1 s2 t1 t2 h1 h2 hne12
            | dropped =>
              simp only [OneshotStore.drop_result, hss, Option.some.injEq] at hdrop
              have hOs : w1.osStore = slabSet w.osStore slot (some ResultState.dropped) := by
                rw [← hdrop]
              have hPd : w1.pending = w.pending := by rw [← hdrop]
              have hMs : w1.msStore = w.msStore := by rw [← hdrop]
              have hHd : w1.handles = listSet w.handles i
                  { kind := HKind.oneshot, alive := false,
                    st := HState.submitted slot t0 } := by rw [← hdrop]; all_goals rfl
              have hAw : w1.awaiting = w.awaiting := by rw [← hdrop]
              refine ⟨fun s st hst => ?_, fun s m hm => ?_, fun i2 s t2 h2 => ?_,
                fun i1 i2 s1 s2 t1 t2 h1 h2 hne12 => ?_⟩
              · rw [hOs] at hst
                rcases eq_or_ne s slot with hs | hs
                · subst hs
                  rw [slabGet_slabSet_self _ _ _ _ hss] at hst
                  injection hst with hst
                  subst hst
                  obtain ⟨c1, c2, c3⟩ := hos s ResultState.dropped hss
                  refine ⟨fun hp => ?_, fun hv => ?_, fun hd => ?_⟩
                  · exact ResultState.noConfusion hp
                  · obtain ⟨v, hv⟩ := hv
                    exact ResultState.noConfusion hv
                  · rw [hPd, hAw]
                    exact c3 rfl
                · rw [slabGet_slabSet_ne _ _ _ _ hs] at hst
                  obtain ⟨c1, c2, c3⟩ := hos s st hst
                  refine ⟨fun hp => ?_, fun hv => ?_, fun hd => ?_⟩
                  · obtain ⟨⟨i', t2, hh'⟩, hpen⟩ := c1 hp
                    refine ⟨⟨i', t2, ?_⟩, ?_⟩
                    · rw [hHd]
                      exact keep1 i' _ s t2 hs hh'
                    · rw [hPd, hAw]
                      exact hpen
                  · obtain ⟨i', t2, hh'⟩ := c2 hv
                    refine ⟨i', t2, ?_⟩
                    rw [hHd]
                    exact keep1 i' _ s t2 hs hh'
                  · rw [hPd, hAw]
                    exact c3 hd
              · rw [hMs] at hm
                obtain ⟨c1, c2⟩ := hms s m hm
                refine ⟨fun hd => ?_, fun hd => ?_⟩
                · rw [hPd, hAw]
                  exact c1 hd
                · obtain ⟨i', t2, hh'⟩ := c2 hd
                  refine ⟨i', t2, ?_⟩
                  rw [hHd]
                  exact keep2 i' s t2 hh'
              · rw [hHd] at h2
                rcases eq_or_ne i2 i with hi | hi
                · rw [hi, listGet_listSet_self _ _ _ _ hh] at h2
                  simp at h2
                · rw [listGet_listSet_ne _ _ _ _ hi] at h2
                  obtain ⟨m, hm, hmd, hcond⟩ := hlink i2 s t2 h2
                  refine ⟨m, ?_, hmd, fun hf => ?_⟩
                  · rw [hMs]
                    exact hm
                  · rw [hPd, hAw]
                    exact hcond hf
              · rw [hHd] at h1 h2
                rcases eq_or_ne i1 i with hi1 | hi1
                · rw [hi1, listGet_listSet_self _ _ _ _ hh] at h1
                  simp at h1
                · rw [listGet_listSet_ne _ _ _ _ hi1] at h1
                  rcases eq_or_ne i2 i with hi2 | hi2
                  · rw [hi2, listGet_listSet_self _ _ _ _ hh] at h2
                    simp at h2
                  · rw [listGet_listSet_ne _ _ _ _ hi2] at h2
                    exact hinj i1 i2 s1 s2 t1 t2 h1 h2 hne12
        | multi =>
          unfold doDrop at hdrop
          rw [hh] at hdrop
          simp only [Bool.true_eq_false, if_false] at hdrop
          cases hss : slabGet w.msStore slot with
          | none => simp [MultishotStore.drop_result, hss] at hdrop
          | some m =>
            have keep1 : ∀ (i' : Nat) (k2 : HKind) (s t2 : Nat),
                listGet w.handles i' =
                  some { kind := k2, alive := true, st := HState.submitted s t2 } →
                i' ≠ i →
                listGet (listSet w.handles i
                    { kind := HKind.multi, alive := false,
                      st := HState.submitted slot t0 }) i' =
                  some { kind := k2, alive := true, st := HState.submitted s t2 } := by
              intro i' k2 s t2 hy hi
              rw [listGet_listSet_ne _ _ _ _ hi]
              exact hy
            have hones : ∀ (i' : Nat) (s t2 : Nat),
                listGet w.handles i' =
                  some { kind := HKind.oneshot, alive := true, st := HState.submitted s t2 } →
                i' ≠ i := by
              intro i' s t2 hy hi
              rw [hi, hh] at hy
              simp at hy
            obtain ⟨q, dflag, fflag⟩ := m
            cases fflag with
            | true =>
              simp only [MultishotStore.drop_result, hss] at hdrop
              rw [if_pos trivial] at hdrop
              simp only [Option.some.injEq] at hdrop
              have hOs : w1.osStore = w.osStore := by rw [← hdrop]
              have hPd : w1.pending = w.pending := by rw [← hdrop]
              have hMs : w1.msStore = slabRemove w.msStore slot := by rw [← hdrop]
              have hHd : w1.handles = listSet w.handles i
                  { kind := HKind.multi, alive := false,
                    st := HState.submitted slot t0 } := by rw [← hdrop]; all_goals rfl
              have hAw : w1.awaiting = w.awaiting := by rw [← hdrop]
              refine ⟨fun s st hst => ?_, fun s m2 hm2 => ?_, fun i2 s t2 h2 => ?_,
                fun i1 i2 s1 s2 t1 t2 h1 h2 hne12 => ?_⟩
              · rw [hOs] at hst
                obtain ⟨c1, c2, c3⟩ := hos s st hst
                refine ⟨fun hp => ?_, fun hv => ?_, fun hd => ?_⟩
                · obtain ⟨⟨i', t2, hh'⟩, hpen⟩ := c1 hp
                  refine ⟨⟨i', t2, ?_⟩, ?_⟩
                  · rw [hHd]
                    exact keep1 i' _ s t2 hh' (hones i' s t2 hh')
                  · rw [hPd, hAw]
                    exact hpen
                · obtain ⟨i', t2, hh'⟩ := c2 hv
                  refine ⟨i', t2, ?_⟩
                  rw [hHd]
                  exact keep1 i' _ s t2 hh' (hones i' s t2 hh')
                · rw [hPd, hAw]
                  exact c3 hd
              · rw [hMs] at hm2
                rcases eq_or_ne s slot with hs | hs
                · subst hs
                  rw [slabGet_slabRemove_self _ _ _ hss] at hm2
                  exact Option.noConfusion hm2
                · rw [slabGet_slabRemove_ne _ _ _ hs] at hm2
                  obtain ⟨c1, c2⟩ := hms s m2 hm2
                  refine ⟨fun hd => ?_, fun hd => ?_⟩
                  · rw [hPd, hAw]
                    exact c1 hd
                  · obtain ⟨i', t2, hh'⟩ := c2 hd
                    have hi : i' ≠ i := by
                      intro he
                      rw [he, hh] at hh'
                      simp only [Option.some.injEq, Handle.mk.injEq,
                        HState.submitted.injEq, true_and] at hh'
                      exact hs hh'.1.symm
                    refine ⟨i', t2, ?_⟩
                    rw [hHd]
                    exact keep1 i' _ s t2 hh' hi
              · rw [hHd] at h2
                rcases eq_or_ne i2 i with hi | hi
                · rw [hi, listGet_listSet_self _ _ _ _ hh] at h2
                  simp at h2
                · rw [listGet_listSet_ne _ _ _ _ hi] at h2
                  obtain ⟨m0, hm0, hmd0, hcond0⟩ := hlink i2 s t2 h2
                  have hs : s ≠ slot := hinj i2 i s slot t2 t0 h2 hh hi
                  refine ⟨m0, ?_, hmd0, fun hfc => ?_⟩
                  · rw [hMs, slabGet_slabRemove_ne _ _ _ hs]
                    exact hm0
                  · rw [hPd, hAw]
                    exact hcond0 hfc
              · rw [hHd] at h1 h2
                rcases eq_or_ne i1 i with hi1 | hi1
                · rw [hi1, listGet_listSet_self _ _ _ _ hh] at h1
                  simp at h1
                · rw [listGet_listSet_ne _ _ _ _ hi1] at h1
                  rcases eq_or_ne i2 i with hi2 | hi2
                  · rw [hi2, listGet_listSet_self _ _ _ _ hh] at h2
                    simp at h2
                  · rw [listGet_listSet_ne _ _ _ _ hi2] at h2
                    exact hinj i1 i2 s1 s2 t1 t2 h1 h2 hne12
            | false =>
              simp only [MultishotStore.drop_result, hss, Bool.false_eq_true,
                if_false, Option.some.injEq] at hdrop
              have hOs : w1.osStore = w.osStore := by rw [← hdrop]
              have hPd : w1.pending = w.pending := by rw [← hdrop]
              have hMs : w1.msStore = slabSet w.msStore slot
                  (some { results := q, dropped := true, finished := false }) := by
                rw [← hdrop]; all_goals rfl
              have hHd : w1.handles = listSet w.handles i
                  { kind := HKind.multi, alive := false,
                    st := HState.submitted slot t0 } := by rw [← hdrop]; all_goals rfl
              have hAw : w1.awaiting = w.awaiting := by rw [← hdrop]
              refine ⟨fun s st hst => ?_, fun s m2 hm2 => ?_, fun i2 s t2 h2 => ?_,
                fun i1 i2 s1 s2 t1 t2 h1 h2 hne12 => ?_⟩
              · rw [hOs] at hst
                obtain ⟨c1, c2, c3⟩ := hos s st hst
                refine ⟨fun hp => ?_, fun hv => ?_, fun hd => ?_⟩
                · obtain ⟨⟨i', t2, hh'⟩, hpen⟩ := c1 hp
                  refine ⟨⟨i', t2, ?_⟩, ?_⟩
                  · rw [hHd]
                    exact keep1 i' _ s t2 hh' (hones i' s t2 hh')
                  · rw [hPd, hAw]
                    exact hpen
                · obtain ⟨i', t2, hh'⟩ := c2 hv
                  refine ⟨i', t2, ?_⟩
                  rw [hHd]
                  exact keep1 i' _ s t2 hh' (hones i' s t2 hh')
                · rw [hPd, hAw]
                  exact c3 hd
              · rw [hMs] at hm2
                rcases eq_or_ne s slot with hs | hs
                · subst hs
                  rw [slabGet_slabSet_self _ _ _ _ hss] at hm2
                  injection hm2 with hm2
                  subst hm2
                  obtain ⟨m0, hm0, hmd0, hcond0⟩ := hlink i s t0 hh
                  rw [hss] at hm0
                  injection hm0 with hm0
                  refine ⟨fun _ => ?_, fun hd => ?_⟩
                  · obtain ⟨⟨o, hp'⟩, hmem'⟩ := hcond0 (by rw [← hm0])
                    refine ⟨t0, o, ?_, ?_⟩
                    · rw [hPd]
                      exact hp'
                    · rw [hAw]
                      exact hmem'
                  · simp at hd
                · rw [slabGet_slabSet_ne _ _ _ _ hs] at hm2
                  obtain ⟨c1, c2⟩ := hms s m2 hm2
                  refine ⟨fun hd => ?_, fun hd => ?_⟩
                  · rw [hPd, hAw]
                    exact c1 hd
                  · obtain ⟨i', t2, hh'⟩ := c2 hd
                    have hi : i' ≠ i := by
                      intro he
                      rw [he, hh] at hh'
                      simp only [Option.some.injEq, Handle.mk.injEq,
                        HState.submitted.injEq, true_and] at hh'
                      exact hs hh'.1.symm
                    refine ⟨i', t2, ?_⟩
                    rw [hHd]
                    exact keep1 i' _ s t2 hh' hi
              · rw [hHd] at h2
                rcases eq_or_ne i2 i with hi | hi
                · rw [hi, listGet_listSet_self _ _ _ _ hh] at h2
                  simp at h2
                · rw [listGet_listSet_ne _ _ _ _ hi] at h2
                  obtain ⟨m0, hm0, hmd0, hcond0⟩ := hlink i2 s t2 h2
                  have hs : s ≠ slot := hinj i2 i s slot t2 t0 h2 hh hi
                  refine ⟨m0, ?_, hmd0, fun hfc => ?_⟩
                  · rw [hMs, slabGet_slabSet_ne _ _ _ _ hs]
                    exact hm0
                  · rw [hPd, hAw]
                    exact hcond0 hfc
              · rw [hHd] at h1 h2
                rcases eq_or_ne i1 i with hi1 | hi1
                · rw [hi1, listGet_listSet_self _ _ _ _ hh] at h1
                  simp at h1
                · rw [listGet_listSet_ne _ _ _ _ hi1] at h1
                  rcases eq_or_ne i2 i with hi2 | hi2
                  · rw [hi2, listGet_listSet_self _ _ _ _ hh] at h2
                    simp at h2
                  · rw [listGet_listSet_ne _ _ _ _ hi2] at h2
                    exact hinj i1 i2 s1 s2 t1 t2 h1 h2 hne12

/-! ## Characterisation and invariance of completion processing -/

theorem reactOne_oneshot_char (w : World) (c : Completion) (o0 s0 : Nat)
    (hp : slabGet w.pending c.tag =
      some { assocObj := o0, resultSlabIdx := s0, kind := HKind.oneshot })
    (hmem : c.tag ∈ w.awaiting)
    (os1 : OneshotStore)
    (hos1 : OneshotStore.set_result w.osStore c.res s0 = some os1) :
    reactOne w c = some ({ w with
      osStore := os1,
      pending := slabRemove w.pending c.tag,
      awaiting := removeTag w.awaiting c.tag }, o0) := by
  simp [reactOne, hp, hmem, hos1]

theorem reactOne_oneshot_none (w : World) (c : Completion) (o0 s0 : Nat)
    (hp : slabGet w.pending c.tag =
      some { assocObj := o0, resultSlabIdx := s0, kind := HKind.oneshot })
    (hnone : OneshotStore.set_result w.osStore c.res s0 = none) :
    reactOne w c = none := by
  by_cases hmem : c.tag ∈ w.awaiting <;>
    simp [reactOne, hp, hmem, hnone]

theorem reactOne_multi_push_char (w : World) (c : Completion) (o0 s0 : Nat)
    (hp : slabGet w.pending c.tag =
      some { assocObj := o0, resultSlabIdx := s0, kind := HKind.multi })
    (hmem : c.tag ∈ w.awaiting) (hmore : c.more = true)
    (ms1 : MultishotStore)
    (hms1 : MultishotStore.push_result w.msStore c.res s0 = some ms1) :
    reactOne w c = some ({ w with msStore := ms1 }, o0) := by
  simp [reactOne, hp, hmem, hmore, hms1]

theorem reactOne_multi_fin_char (w : World) (c : Completion) (o0 s0 : Nat)
    (hp : slabGet w.pending c.tag =
      some { assocObj := o0, resultSlabIdx := s0, kind := HKind.multi })
    (hmem : c.tag ∈ w.awaiting) (hmore : c.more = false)
    (ms1 : MultishotStore)
    (hms1 : MultishotStore.set_finished w.msStore s0 = some ms1) :
    reactOne w c = some ({ w with
      msStore := ms1,
      pending := slabRemove w.pending c.tag,
      awaiting := removeTag w.awaiting c.tag }, o0) := by
  simp [reactOne, hp, hmem, hmore, hms1]

theorem reactOne_multi_none (w : World) (c : Completion) (o0 s0 : Nat)
    (hp : slabGet w.pending c.tag =
      some { assocObj := o0, resultSlabIdx := s0, kind := HKind.multi })
    (hnone : slabGet w.msStore s0 = none) :
    reactOne w c = none := by
  by_cases hmem : c.tag ∈ w.awaiting <;>
    cases hmore : c.more <;>
      simp [reactOne, hp, hmem, hmore, MultishotStore.push_result,
        MultishotStore.set_finished, hnone]

/-- `ReactorInv` is preserved by processing one completion. -/
theorem inv_reactOne (w : World) (c : Completion) (w1 : World) (tok : Nat)
    (hreact : reactOne w c = some (w1, tok)) (hInv : ReactorInv w) :
    ReactorInv w1 := by
  obtain ⟨hos, hms, hlink, hinj⟩ := hInv
  cases hp : slabGet w.pending c.tag with
  | none =>
    unfold reactOne at hreact
    rw [hp] at hreact
    simp at hreact
  | some p =>
    obtain ⟨o0, s0, k0⟩ := p
    by_cases hmem : c.tag ∈ w.awaiting
    case neg =>
      unfold reactOne at hreact
      rw [hp] at hreact
      simp [hmem] at hreact
    case pos =>
      cases k0 with
      | oneshot =>
        cases hss : slabGet w.osStore s0 with
        | none =>
          rw [reactOne_oneshot_none w c o0 s0 hp
            (by simp [OneshotStore.set_result, hss])] at hreact
          exact Option.noConfusion hreact
        | some rs =>
          have hpendNeOs : ∀ (t2 o s : Nat), s ≠ s0 →
              slabGet w.pending t2 =
                some { assocObj := o, resultSlabIdx := s, kind := HKind.oneshot } →
              t2 ≠ c.tag := by
            intro t2 o s hs hp' he
            rw [he, hp] at hp'
            simp only [Option.some.injEq, PendingEntry.mk.injEq] at hp'
            exact hs hp'.2.1.symm
          have hpendNeMs : ∀ (t2 o s : Nat),
              slabGet w.pending t2 =
                some { assocObj := o, resultSlabIdx := s, kind := HKind.multi } →
              t2 ≠ c.tag := by
            intro t2 o s hp' he
            rw [he, hp] at hp'
            simp at hp'
          have hcont : ∀ (os1 : OneshotStore),
              OneshotStore.set_result w.osStore c.res s0 = some os1 →
              (∀ s st, s ≠ s0 → slabGet os1 s = some st → slabGet w.osStore s = some st) →
              (∀ st, slabGet os1 s0 = some st →
                (st = ResultState.pending → False) ∧
                (st = ResultState.dropped → False) ∧
                (∀ v, st = ResultState.set v →
                  ∃ i t2, listGet w.handles i =
                    some { kind := HKind.oneshot, alive := true, st := HState.submitted s0 t2 })) →
              ReactorInv w1 := by
            intro os1 hos1 hother hself
            have hchar := reactOne_oneshot_char w c o0 s0 hp hmem os1 hos1
            rw [hchar] at hreact
            simp only [Option.some.injEq, Prod.mk.injEq] at hreact
            obtain ⟨hw1, -⟩ := hreact
            have hOs : w1.osStore = os1 := by rw [← hw1]
            have hPd : w1.pending = slabRemove w.pending c.tag := by rw [← hw1]
            have hMs : w1.msStore = w.msStore := by rw [← hw1]
            have hHd : w1.handles = w.handles := by rw [← hw1]
            have hAw : w1.awaiting = removeTag w.awaiting c.tag := by rw [← hw1]
            refine ⟨fun s st hst => ?_, fun s m hm => ?_, fun i2 s t2 h2 => ?_,
              fun i1 i2 s1 s2 t1 t2 h1 h2 hne12 => ?_⟩
            · rw [hOs] at hst
              rcases eq_or_ne s s0 with hs | hs
              · subst hs
                obtain ⟨k1, k2, k3⟩ := hself st hst
                refine ⟨fun hpe => absurd hpe k1, fun hv => ?_, fun hd => absurd hd k2⟩
                obtain ⟨v, hv⟩ := hv
                obtain ⟨i', t2, hh'⟩ := k3 v hv
                refine ⟨i', t2, ?_⟩
                rw [hHd]
                exact hh'
              · have hst0 : slabGet w.osStore s = some st := hother s st hs hst
                obtain ⟨c1, c2, c3⟩ := hos s st hst0
                refine ⟨fun hpe => ?_, fun hv => ?_, fun hd => ?_⟩
                · obtain ⟨⟨i', t2, hh'⟩, ⟨t2', o, hp', hmem'⟩⟩ := c1 hpe
                  have hne : t2' ≠ c.tag := hpendNeOs t2' o s hs hp'
                  refine ⟨⟨i', t2, by rw [hHd]; exact hh'⟩, ⟨t2', o, ?_, ?_⟩⟩
                  · rw [hPd, slabGet_slabRemove_ne _ _ _ hne]
                    exact hp'
                  · rw [hAw]
                    exact mem_removeTag.mpr ⟨hmem', hne⟩
                · obtain ⟨i', t2, hh'⟩ := c2 hv
                  exact ⟨i', t2, by rw [hHd]; exact hh'⟩
                · obtain ⟨t2', o, hp', hmem'⟩ := c3 hd
                  have hne : t2' ≠ c.tag := hpendNeOs t2' o s hs hp'
                  refine ⟨t2', o, ?_, ?_⟩
                  · rw [hPd, slabGet_slabRemove_ne _ _ _ hne]
                    exact hp'
                  · rw [hAw]
                    exact mem_removeTag.mpr ⟨hmem', hne⟩
            · rw [hMs] at hm
              obtain ⟨c1, c2⟩ := hms s m hm
              refine ⟨fun hd => ?_, fun hd => ?_⟩
              · obtain ⟨t2', o, hp', hmem'⟩ := c1 hd
                have hne : t2' ≠ c.tag := hpendNeMs t2' o s hp'
                refine ⟨t2', o, ?_, ?_⟩
                · rw [hPd, slabGet_slabRemove_ne _ _ _ hne]
                  exact hp'
                · rw [hAw]
                  exact mem_removeTag.mpr ⟨hmem', hne⟩
              · obtain ⟨i', t2, hh'⟩ := c2 hd
                exact ⟨i', t2, by rw [hHd]; exact hh'⟩
            · rw [hHd] at h2
              obtain ⟨m, hm, hmd, hcond⟩ := hlink i2 s t2 h2
              refine ⟨m, by rw [hMs]; exact hm, hmd, fun hf => ?_⟩
              obtain ⟨⟨o, hp'⟩, hmem'⟩ := hcond hf
              have hne : t2 ≠ c.tag := hpendNeMs t2 o s hp'
              refine ⟨⟨o, ?_⟩, ?_⟩
              · rw [hPd, slabGet_slabRemove_ne _ _ _ hne]
                exact hp'
              · rw [hAw]
                exact mem_removeTag.mpr ⟨hmem', hne⟩
            · rw [hHd] at h1 h2
              exact hinj i1 i2 s1 s2 t1 t2 h1 h2 hne12
          cases rs with
          | pending =>
            refine hcont (slabSet w.osStore s0 (some (ResultState.set c.res)))
              (by simp [OneshotStore.set_result, hss]) ?_ ?_
            · intro s st hs hst
              rw [slabGet_slabSet_ne _ _ _ _ hs] at hst
              exact hst
            · intro st hst
              rw [slabGet_slabSet_self _ _ _ _ hss] at hst
              injection hst with hst
              subst hst
              refine ⟨fun hpe => ResultState.noConfusion hpe,
                fun hd => ResultState.noConfusion hd, fun v hv => ?_⟩
              obtain ⟨c1, -, -⟩ := hos s0 ResultState.pending hss
              exact (c1 rfl).1
          | set v0 =>
            refine hcont (slabSet w.osStore s0 (some (ResultState.set c.res)))
              (by simp [OneshotStore.set_result, hss]) ?_ ?_
            · intro s st hs hst
              rw [slabGet_slabSet_ne _ _ _ _ hs] at hst
              exact hst
            · intro st hst
              rw [slabGet_slabSet_self _ _ _ _ hss] at hst
              injection hst with hst
              subst hst
              refine ⟨fun hpe => ResultState.noConfusion hpe,
                fun hd => ResultState.noConfusion hd, fun v hv => ?_⟩
              obtain ⟨-, c2, -⟩ := hos s0 (ResultState.set v0) hss
              exact c2 ⟨v0, rfl⟩
          | dropped =>
            refine hcont (slabRemove w.osStore s0)
              (by simp [OneshotStore.set_result, hss]) ?_ ?_
            · intro s st hs hst
              rw [slabGet_slabRemove_ne _ _ _ hs] at hst
              exact hst
            · intro st hst
              rw [slabGet_slabRemove_self _ _ _ hss] at hst
              exact Option.noConfusion hst
      | multi =>
        cases hss : slabGet w.msStore s0 with
        | none =>
          rw [reactOne_multi_none w c o0 s0 hp hss] at hreact
          exact Option.noConfusion hreact
        | some m =>
          obtain ⟨q, dflag, fflag⟩ := m
          have hpendNeOs : ∀ (t2 o s : Nat),
              slabGet w.pending t2 =
                some { assocObj := o, resultSlabIdx := s, kind := HKind.oneshot } →
              t2 ≠ c.tag := by
            intro t2 o s hp' he
            rw [he, hp] at hp'
            simp at hp'
          have hpendNeMs : ∀ (t2 o s : Nat), s ≠ s0 →
              slabGet w.pending t2 =
                some { assocObj := o, resultSlabIdx := s, kind := HKind.multi } →
              t2 ≠ c.tag := by
            intro t2 o s hs hp' he
            rw [he, hp] at hp'
            simp only [Option.some.injEq, PendingEntry.mk.injEq] at hp'
            exact hs hp'.2.1.symm
          cases hmore : c.more with
          | true =>
            have hchar := reactOne_multi_push_char w c o0 s0 hp hmem hmore
              (slabSet w.msStore s0
                (some { results := rbPush q c.res, dropped := dflag, finished := fflag }))
              (by simp [MultishotStore.push_result, hss])
            rw [hchar] at hreact
            simp only [Option.some.injEq, Prod.mk.injEq] at hreact
            obtain ⟨hw1, -⟩ := hreact
            have hOs : w1.osStore = w.osStore := by rw [← hw1]
            have hPd : w1.pending = w.pending := by rw [← hw1]
            have hMs : w1.msStore = slabSet w.msStore s0
                (some { results := rbPush q c.res, dropped := dflag, finished := fflag }) := by
              rw [← hw1]
            have hHd : w1.handles = w.handles := by rw [← hw1]
            have hAw : w1.awaiting = w.awaiting := by rw [← hw1]
            refine ⟨fun s st hst => ?_, fun s m2 hm2 => ?_, fun i2 s t2 h2 => ?_,
              fun i1 i2 s1 s2 t1 t2 h1 h2 hne12 => ?_⟩
            · rw [hOs] at hst
              rw [hHd, hPd, hAw]
              exact hos s st hst
            · rw [hMs] at hm2
              rcases eq_or_ne s s0 with hs | hs
              · subst hs
                rw [slabGet_slabSet_self _ _ _ _ hss] at hm2
                injection hm2 with hm2
                subst hm2
                obtain ⟨c1, c2⟩ := hms s _ hss
                refine ⟨fun hd => ?_, fun hd => ?_⟩
                · rw [hPd, hAw]
                  exact c1 hd
                · rw [hHd]
                  exact c2 hd
              · rw [slabGet_slabSet_ne _ _ _ _ hs] at hm2
                obtain ⟨c1, c2⟩ := hms s m2 hm2
                refine ⟨fun hd => ?_, fun hd => ?_⟩
                · rw [hPd, hAw]
                  exact c1 hd
                · rw [hHd]
                  exact c2 hd
            · rw [hHd] at h2
              obtain ⟨m0, hm0, hmd0, hcond0⟩ := hlink i2 s t2 h2
              rcases eq_or_ne s s0 with hs | hs
              · subst hs
                rw [hss] at hm0
                injection hm0 with hm0
                refine ⟨{ results := rbPush q c.res, dropped := dflag, finished := fflag },
                  ?_, ?_, fun hf => ?_⟩
                · rw [hMs]
                  exact slabGet_slabSet_self _ _ _ _ hss
                · rw [← hm0] at hmd0
                  exact hmd0
                · rw [hPd, hAw]
                  refine hcond0 ?_
                  rw [← hm0]
                  exact hf
              · refine ⟨m0, ?_, hmd0, fun hf => ?_⟩
                · rw [hMs, slabGet_slabSet_ne _ _ _ _ hs]
                  exact hm0
                · rw [hPd, hAw]
                  exact hcond0 hf
            · rw [hHd] at h1 h2
              exact hinj i1 i2 s1 s2 t1 t2 h1 h2 hne12
          | false =>
            cases dflag with
            | true =>
              have hchar := reactOne_multi_fin_char w c o0 s0 hp hmem hmore
                (slabRemove w.msStore s0)
                (by simp [MultishotStore.set_finished, hss])
              rw [hchar] at hreact
              simp only [Option.some.injEq, Prod.mk.injEq] at hreact
              obtain ⟨hw1, -⟩ := hreact
              have hOs : w1.osStore = w.osStore := by rw [← hw1]
              have hPd : w1.pending = slabRemove w.pending c.tag := by rw [← hw1]
              have hMs : w1.msStore = slabRemove w.msStore s0 := by rw [← hw1]
              have hHd : w1.handles = w.handles := by rw [← hw1]
              have hAw : w1.awaiting = removeTag w.awaiting c.tag := by rw [← hw1]
              refine ⟨fun s st hst => ?_, fun s m2 hm2 => ?_, fun i2 s t2 h2 => ?_,
                fun i1 i2 s1 s2 t1 t2 h1 h2 hne12 => ?_⟩
              · rw [hOs] at hst
                obtain ⟨c1, c2, c3⟩ := hos s st hst
                refine ⟨fun hpe => ?_, fun hv => ?_, fun hd => ?_⟩
                · obtain ⟨⟨i', t2, hh'⟩, ⟨t2', o, hp', hmem'⟩⟩ := c1 hpe
                  have hne : t2' ≠ c.tag := hpendNeOs t2' o s hp'
                  refine ⟨⟨i', t2, by rw [hHd]; exact hh'⟩, ⟨t2', o, ?_, ?_⟩⟩
                  · rw [hPd, slabGet_slabRemove_ne _ _ _ hne]
                    exact hp'
                  · rw [hAw]
                    exact mem_removeTag.mpr ⟨hmem', hne⟩
                · obtain ⟨i', t2, hh'⟩ := c2 hv
                  exact ⟨i', t2, by rw [hHd]; exact hh'⟩
                · obtain ⟨t2', o, hp', hmem'⟩ := c3 hd
                  have hne : t2' ≠ c.tag := hpendNeOs t2' o s hp'
                  refine ⟨t2', o, ?_, ?_⟩
                  · rw [hPd, slabGet_slabRemove_ne _ _ _ hne]
                    exact hp'
                  · rw [hAw]
                    exact mem_removeTag.mpr ⟨hmem', hne⟩
              · rw [hMs] at hm2
                rcases eq_or_ne s s0 with hs | hs
                · subst hs
                  rw [slabGet_slabRemove_self _ _ _ hss] at hm2
                  exact Option.noConfusion hm2
                · rw [slabGet_slabRemove_ne _ _ _ hs] at hm2
                  obtain ⟨c1, c2⟩ := hms s m2 hm2
                  refine ⟨fun hd => ?_, fun hd => ?_⟩
                  · obtain ⟨t2', o, hp', hmem'⟩ := c1 hd
                    have hne : t2' ≠ c.tag := hpendNeMs t2' o s hs hp'
                    refine ⟨t2', o, ?_, ?_⟩
                    · rw [hPd, slabGet_slabRemove_ne _ _ _ hne]
                      exact hp'
                    · rw [hAw]
                      exact mem_removeTag.mpr ⟨hmem', hne⟩
                  · obtain ⟨i', t2, hh'⟩ := c2 hd
                    exact ⟨i', t2, by rw [hHd]; exact hh'⟩
              · rw [hHd] at h2
                obtain ⟨m0, hm0, hmd0, hcond0⟩ := hlink i2 s t2 h2
                have hs : s ≠ s0 := by
                  intro he
                  rw [he, hss] at hm0
                  injection hm0 with hm0
                  rw [← hm0] at hmd0
                  exact Bool.noConfusion hmd0
                refine ⟨m0, ?_, hmd0, fun hf => ?_⟩
                · rw [hMs, slabGet_slabRemove_ne _ _ _ hs]
                  exact hm0
                · obtain ⟨⟨o, hp'⟩, hmem'⟩ := hcond0 hf
                  have hne : t2 ≠ c.tag := hpendNeMs t2 o s hs hp'
                  refine ⟨⟨o, ?_⟩, ?_⟩
                  · rw [hPd, slabGet_slabRemove_ne _ _ _ hne]
                    exact hp'
                  · rw [hAw]
                    exact mem_removeTag.mpr ⟨hmem', hne⟩
              · rw [hHd] at h1 h2
                exact hinj i1 i2 s1 s2 t1 t2 h1 h2 hne12
            | false =>
              have hchar := reactOne_multi_fin_char w c o0 s0 hp hmem hmore
                (slabSet w.msStore s0
                  (some { results := q, dropped := false, finished := true }))
                (by simp [MultishotStore.set_finished, hss])
              rw [hchar] at hreact
              simp only [Option.some.injEq, Prod.mk.injEq] at hreact
              obtain ⟨hw1, -⟩ := hreact
              have hOs : w1.osStore = w.osStore := by rw [← hw1]
              have hPd : w1.pending = slabRemove w.pending c.tag := by rw [← hw1]
              have hMs : w1.msStore = slabSet w.msStore s0
                  (some { results := q, dropped := false, finished := true }) := by
                rw [← hw1]
              have hHd : w1.handles = w.handles := by rw [← hw1]
              have hAw : w1.awaiting = removeTag w.awaiting c.tag := by rw [← hw1]
              refine ⟨fun s st hst => ?_, fun s m2 hm2 => ?_, fun i2 s t2 h2 => ?_,
                fun i1 i2 s1 s2 t1 t2 h1 h2 hne12 => ?_⟩
              · rw [hOs] at hst
                obtain ⟨c1, c2, c3⟩ := hos s st hst
                refine ⟨fun hpe => ?_, fun hv => ?_, fun hd => ?_⟩
                · obtain ⟨⟨i', t2, hh'⟩, ⟨t2', o, hp', hmem'⟩⟩ := c1 hpe
                  have hne : t2' ≠ c.tag := hpendNeOs t2' o s hp'
                  refine ⟨⟨i', t2, by rw [hHd]; exact hh'⟩, ⟨t2', o, ?_, ?_⟩⟩
                  · rw [hPd, slabGet_slabRemove_ne _ _ _ hne]
                    exact hp'
                  · rw [hAw]
                    exact mem_removeTag.mpr ⟨hmem', hne⟩
                · obtain ⟨i', t2, hh'⟩ := c2 hv
                  exact ⟨i', t2, by rw [hHd]; exact hh'⟩
                · obtain ⟨t2', o, hp', hmem'⟩ := c3 hd
                  have hne : t2' ≠ c.tag := hpendNeOs t2' o s hp'
                  refine ⟨t2', o, ?_, ?_⟩
                  · rw [hPd, slabGet_slabRemove_ne _ _ _ hne]
                    exact hp'
                  · rw [hAw]
                    exact mem_removeTag.mpr ⟨hmem', hne⟩
              · rw [hMs] at hm2
                rcases eq_or_ne s s0 with hs | hs
                · subst hs
                  rw [slabGet_slabSet_self _ _ _ _ hss] at hm2
                  injection hm2 with hm2
                  subst hm2
                  obtain ⟨c1, c2⟩ := hms s _ hss
                  refine ⟨fun hd => ?_, fun hd => ?_⟩
                  · exact absurd hd (by simp)
                  · rw [hHd]
                    exact c2 rfl
                · rw [slabGet_slabSet_ne _ _ _ _ hs] at hm2
                  obtain ⟨c1, c2⟩ := hms s m2 hm2
                  refine ⟨fun hd => ?_, fun hd => ?_⟩
                  · obtain ⟨t2', o, hp', hmem'⟩ := c1 hd
                    have hne : t2' ≠ c.tag := hpendNeMs t2' o s hs hp'
                    refine ⟨t2', o, ?_, ?_⟩
                    · rw [hPd, slabGet_slabRemove_ne _ _ _ hne]
                      exact hp'
                    · rw [hAw]
                      exact mem_removeTag.mpr ⟨hmem', hne⟩
                  · obtain ⟨i', t2, hh'⟩ := c2 hd
                    exact ⟨i', t2, by rw [hHd]; exact hh'⟩
              · rw [hHd] at h2
                obtain ⟨m0, hm0, hmd0, hcond0⟩ := hlink i2 s t2 h2
                rcases eq_or_ne s s0 with hs | hs
                · subst hs
                  rw [hss] at hm0
                  injection hm0 with hm0
                  refine ⟨{ results := q, dropped := false, finished := true },
                    ?_, rfl, fun hf => ?_⟩
                  · rw [hMs]
                    exact slabGet_slabSet_self _ _ _ _ hss
                  · exact absurd hf (by simp)
                · refine ⟨m0, ?_, hmd0, fun hf => ?_⟩
                  · rw [hMs, slabGet_slabSet_ne _ _ _ _ hs]
                    exact hm0
                  · obtain ⟨⟨o, hp'⟩, hmem'⟩ := hcond0 hf
                    have hne : t2 ≠ c.tag := hpendNeMs t2 o s hs hp'
                    refine ⟨⟨o, ?_⟩, ?_⟩
                    · rw [hPd, slabGet_slabRemove_ne _ _ _ hne]
                      exact hp'
                    · rw [hAw]
                      exact mem_removeTag.mpr ⟨hmem', hne⟩
              · rw [hHd] at h1 h2
                exact hinj i1 i2 s1 s2 t1 t2 h1 h2 hne12

/-- `ReactorInv` is preserved by draining a batch of completions. -/
theorem inv_reactList : ∀ (cs : List Completion) (w w1 : World) (toks : List Nat),
    reactList w cs = some (w1, toks) → ReactorInv w → ReactorInv w1 := by
  intro cs
  induction cs with
  | nil =>
    intro w w1 toks h hInv
    simp only [reactList, Option.some.injEq, Prod.mk.injEq] at h
    exact h.1 ▸ hInv
  | cons c rest ih =>
    intro w w1 toks h hInv
    cases hr : reactOne w c with
    | none => simp [reactList, hr] at h
    | some r =>
      cases hrest : reactList r.1 rest with
      | none => simp [reactList, hr, hrest] at h
      | some r2 =>
        simp only [reactList, hr, hrest, Option.some.injEq, Prod.mk.injEq] at h
        obtain ⟨hw1, -⟩ := h
        exact hw1 ▸ ih r.1 r2.1 r2.2 (by rw [hrest])
          (inv_reactOne w c r.1 r.2 (by rw [hr]) hInv)

/-- `ReactorInv` is preserved by every system step. -/
theorem inv_step (w : World) (e : Event) (w1 : World)
    (hstep : step w e = some w1) (hInv : ReactorInv w) : ReactorInv w1 := by
  cases e with
  | newOneshot =>
    simp only [step, Option.some.injEq] at hstep
    exact hstep ▸ inv_newHandle w HKind.oneshot hInv
  | newMulti =>
    simp only [step, Option.some.injEq] at hstep
    exact hstep ▸ inv_newHandle w HKind.multi hInv
  | pollEv i tok =>
    simp only [step] at hstep
    cases hdp : doPoll w i tok with
    | none => rw [hdp] at hstep; simp at hstep
    | some r =>
      rw [hdp] at hstep
      simp only [Option.map, Option.some.injEq] at hstep
      exact hstep ▸ inv_doPoll w i tok r.1 r.2 (by rw [hdp]) hInv
  | reactEv cs =>
    simp only [step] at hstep
    cases hrl : reactList w cs with
    | none => rw [hrl] at hstep; simp at hstep
    | some r =>
      rw [hrl] at hstep
      simp only [Option.map, Option.some.injEq] at hstep
      exact hstep ▸ inv_reactList cs w r.1 r.2 (by rw [hrl]) hInv
  | dropEv i =>
    simp only [step] at hstep
    exact inv_doDrop w i w1 hstep hInv

/-- `ReactorInv` is preserved by running any event sequence. -/
theorem inv_run : ∀ (evs : List Event) (w w1 : World),
    run w evs = some w1 → ReactorInv w → ReactorInv w1 := by
  intro evs
  induction evs with
  | nil =>
    intro w w1 h hInv
    simp only [run, Option.some.injEq] at h
    exact h ▸ hInv
  | cons e rest ih =>
    intro w w1 h hInv
    unfold run at h
    cases hs : step w e with
    | none => rw [hs] at h; simp at h
    | some w2 =>
      rw [hs] at h
      exact ih w2 w1 h (inv_step w e w2 hs hInv)

/-! ## Quiescence (claim C4) and drop-cancel (claim C1) -/

/-- The world after `[newMulti, poll, react final, poll]`: the stream
finished naturally, the final completion was drained, and the handle
consumed the end-of-stream — yet the slot is still in the multishot
store. -/
def c4World : World :=
  { pending := [none], osStore := [],
    msStore := [some { results := [], dropped := false, finished := true }],
    handles := [{ kind := HKind.multi, alive := true, st := HState.submitted 0 0 }],
    awaiting := [], cancelLog := [] }

/-- Claim C4, counterexample: after the trace create-multishot, poll
(submit), react draining the stream's final completion, poll (which
returns ready(none) — the end of stream has been consumed, and no
submission is outstanding: `awaiting = []`), the multishot result store
still contains the slot, so the claim's quiescence condition ("final
completion received and consumed or handle dropped") does not empty the
stores as claimed. -/
theorem C4_counterexample :
    run initWorld [Event.newMulti, Event.pollEv 0 7,
        Event.reactEv [{ tag := 0, res := 3, more := false }], Event.pollEv 0 7] =
      some c4World ∧
    c4World.awaiting = [] ∧
    doPoll c4World 0 7 = some (PollOut.readyMulti none, c4World) ∧
    slabIsEmpty c4World.msStore = false :=
  ⟨rfl, rfl, rfl, rfl⟩

/-- Claim C4 (amended): after any finite sequence of handle creations,
polls, reacts and handle drops in which every submission has received its
final completion (`awaiting = []`), every live oneshot handle has consumed
its result (or was never submitted), and every live multishot handle was
never submitted — i.e. every submitted multishot handle has been dropped —
both result stores contain no slots.  (The amendment: consuming a
multishot end-of-stream does not remove its slot; only dropping the handle
does.) -/
theorem C4_quiesced_stores_empty (evs : List Event) (w : World)
    (hrun : run initWorld evs = some w)
    (hawait : w.awaiting = [])
    (hone : ∀ i hr, listGet w.handles i = some hr → hr.alive = true →
      hr.kind = HKind.oneshot →
      hr.st = HState.hNew ∨ ∃ v, hr.st = HState.finishedWith v)
    (hmulti : ∀ i hr, listGet w.handles i = some hr → hr.alive = true →
      hr.kind = HKind.multi → hr.st = HState.hNew) :
    slabIsEmpty w.osStore = true ∧ slabIsEmpty w.msStore = true := by
  have hInv := inv_run evs initWorld w hrun inv_initWorld
  obtain ⟨hos, hms, hlink, hinj⟩ := hInv
  constructor
  · apply slabIsEmpty_of_all_none
    intro s
    cases hst : slabGet w.osStore s with
    | none => rfl
    | some st =>
      exfalso
      obtain ⟨c1, c2, c3⟩ := hos s st hst
      cases st with
      | pending =>
        obtain ⟨-, ⟨t2, o, -, hmem⟩⟩ := c1 rfl
        rw [hawait] at hmem
        exact absurd hmem (List.not_mem_nil t2)
      | set v =>
        obtain ⟨i, t2, hh⟩ := c2 ⟨v, rfl⟩
        rcases hone i _ hh rfl rfl with h | ⟨v2, h⟩ <;> exact HState.noConfusion h
      | dropped =>
        obtain ⟨t2, o, -, hmem⟩ := c3 rfl
        rw [hawait] at hmem
        exact absurd hmem (List.not_mem_nil t2)
  · apply slabIsEmpty_of_all_none
    intro s
    cases hm : slabGet w.msStore s with
    | none => rfl
    | some m =>
      exfalso
      obtain ⟨c1, c2⟩ := hms s m hm
      cases hd : m.dropped with
      | true =>
        obtain ⟨t2, o, -, hmem⟩ := c1 hd
        rw [hawait] at hmem
        exact absurd hmem (List.not_mem_nil t2)
      | false =>
        obtain ⟨i, t2, hh⟩ := c2 hd
        exact HState.noConfusion (hmulti i _ hh rfl rfl)

/-- The world after `[newOneshot, poll, react, poll]`: submission
completed, consumed, stores empty. -/
def c4GoodWorld : World :=
  { pending := [none], osStore := [none], msStore := [],
    handles := [{ kind := HKind.oneshot, alive := true, st := HState.finishedWith 5 }],
    awaiting := [], cancelLog := [] }

theorem C4_quiesced_stores_empty_witness :
    run initWorld [Event.newOneshot, Event.pollEv 0 10,
        Event.reactEv [{ tag := 0, res := 5, more := false }], Event.pollEv 0 10] =
      some c4GoodWorld ∧
    c4GoodWorld.awaiting = [] ∧
    (slabIsEmpty c4GoodWorld.osStore = true ∧ slabIsEmpty c4GoodWorld.msStore = true) :=
  ⟨rfl, rfl,
    C4_quiesced_stores_empty
      [Event.newOneshot, Event.pollEv 0 10,
        Event.reactEv [{ tag := 0, res := 5, more := false }], Event.pollEv 0 10]
      c4GoodWorld rfl rfl
      (by
        intro i hr h ha hk
        cases i with
        | zero =>
          injection h with h
          subst h
          exact Or.inr ⟨5, rfl⟩
        | succ n =>
          cases n <;> exact Option.noConfusion h)
      (by
        intro i hr h ha hk
        cases i with
        | zero =>
          injection h with h
          subst h
          exact HKind.noConfusion hk
        | succ n =>
          cases n <;> exact Option.noConfusion h)⟩

/-- The world after `[newMulti, poll, drop]`: the handle was dropped while
Submitted, before any completion. -/
def c1World : World :=
  { pending := [some { assocObj := 10, resultSlabIdx := 0, kind := HKind.multi }],
    osStore := [],
    msStore := [some { results := [], dropped := true, finished := false }],
    handles := [{ kind := HKind.multi, alive := false, st := HState.submitted 0 0 }],
    awaiting := [0], cancelLog := [0] }

/-- Claim C1, counterexample: dropping a Submitted multishot handle does
issue the synchronous cancel (tag 0 is in the cancel log), but right after
the drop completes the pending table STILL contains the handle's tag and
the multishot store STILL contains its slot (marked dropped): `Drop for
MultishotUringIo` never touches the pending table, and `drop_result` on an
unfinished slot only sets the `dropped` flag. -/
theorem C1_counterexample :
    run initWorld [Event.newMulti, Event.pollEv 0 10, Event.dropEv 0] = some c1World ∧
    (0 : Nat) ∈ c1World.cancelLog ∧
    slabGet c1World.pending 0 =
      some { assocObj := 10, resultSlabIdx := 0, kind := HKind.multi } ∧
    slabGet c1World.msStore 0 =
      some { results := [], dropped := true, finished := false } :=
  ⟨rfl, List.mem_singleton.mpr rfl, rfl, rfl⟩

/-- Claim C1 (amended): dropping a Submitted multishot handle (unfinished
stream) synchronously issues the kernel cancellation by its tag and marks
the slot dropped; at that point the pending entry and the slot are still
present.  When the cancellation's final completion (more flag clear) is
drained by a subsequent react, the slot and the pending entry are removed
and the tag retired, after which no completion bearing that tag can reach
any store (processing it panics on the vacant pending tag before any store
access). -/
theorem C1_drop_cancel (w : World) (i s t o : Nat) (q : List Int)
    (hh : listGet w.handles i =
      some { kind := HKind.multi, alive := true, st := HState.submitted s t })
    (hslot : slabGet w.msStore s =
      some { results := q, dropped := false, finished := false })
    (hpend : slabGet w.pending t =
      some { assocObj := o, resultSlabIdx := s, kind := HKind.multi })
    (hmem : t ∈ w.awaiting) :
    ∃ w1, doDrop w i = some w1 ∧
      t ∈ w1.cancelLog ∧
      slabGet w1.msStore s = some { results := q, dropped := true, finished := false } ∧
      slabGet w1.pending t =
        some { assocObj := o, resultSlabIdx := s, kind := HKind.multi } ∧
      (∀ r : Int, ∃ w2,
        reactOne w1 { tag := t, res := r, more := false } = some (w2, o) ∧
        slabGet w2.msStore s = none ∧
        slabGet w2.pending t = none ∧
        t ∉ w2.awaiting ∧
        (∀ c : Completion, c.tag = t → reactOne w2 c = none)) := by
  refine ⟨{ w with
      handles := listSet w.handles i
        { kind := HKind.multi, alive := false, st := HState.submitted s t },
      msStore := slabSet w.msStore s
        (some { results := q, dropped := true, finished := false }),
      cancelLog := t :: w.cancelLog }, ?_, ?_, ?_, ?_, ?_⟩
  · simp [doDrop, hh, MultishotStore.drop_result, hslot]
  · exact List.mem_cons_self t w.cancelLog
  · exact slabGet_slabSet_self _ _ _ _ hslot
  · exact hpend
  · intro r
    have hWslot : slabGet (slabSet w.msStore s
        (some { results := q, dropped := true, finished := false })) s =
        some { results := q, dropped := true, finished := false } :=
      slabGet_slabSet_self _ _ _ _ hslot
    refine ⟨{ w with
        handles := listSet w.handles i
          { kind := HKind.multi, alive := false, st := HState.submitted s t },
        msStore := slabRemove (slabSet w.msStore s
          (some { results := q, dropped := true, finished := false })) s,
        pending := slabRemove w.pending t,
        awaiting := removeTag w.awaiting t,
        cancelLog := t :: w.cancelLog }, ?_, ?_, ?_, ?_, ?_⟩
    · exact reactOne_multi_fin_char
        { w with
          handles := listSet w.handles i
            { kind := HKind.multi, alive := false, st := HState.submitted s t },
          msStore := slabSet w.msStore s
            (some { results := q, dropped := true, finished := false }),
          cancelLog := t :: w.cancelLog }
        { tag := t, res := r, more := false } o s hpend hmem rfl
        (slabRemove (slabSet w.msStore s
          (some { results := q, dropped := true, finished := false })) s)
        (by simp [MultishotStore.set_finished, hWslot])
    · exact slabGet_slabRemove_self _ _ _ hWslot
    · exact slabGet_slabRemove_self _ _ _ hpend
    · intro hmm
      exact (mem_removeTag.mp hmm).2 rfl
    · intro c hc
      have hnone : slabGet (slabRemove w.pending t) c.tag = none := by
        rw [hc]
        exact slabGet_slabRemove_self _ _ _ hpend
      simp [reactOne, hnone]

/-- The world after `[newMulti, pollEv 0 10]`: one live Submitted
multishot handle, empty slot, pending tag 0 awaiting. -/
def c1PreWorld : World :=
  { pending := [some { assocObj := 10, resultSlabIdx := 0, kind := HKind.multi }],
    osStore := [],
    msStore := [some { results := [], dropped := false, finished := false }],
    handles := [{ kind := HKind.multi, alive := true, st := HState.submitted 0 0 }],
    awaiting := [0], cancelLog := [] }

theorem C1_drop_cancel_witness :
    listGet c1PreWorld.handles 0 =
      some { kind := HKind.multi, alive := true, st := HState.submitted 0 0 } ∧
    slabGet c1PreWorld.msStore 0 =
      some { results := [], dropped := false, finished := false } ∧
    slabGet c1PreWorld.pending 0 =
      some { assocObj := 10, resultSlabIdx := 0, kind := HKind.multi } ∧
    (0 : Nat) ∈ c1PreWorld.awaiting ∧
    (∃ w1, doDrop c1PreWorld 0 = some w1 ∧
      (0 : Nat) ∈ w1.cancelLog ∧
      slabGet w1.msStore 0 = some { results := [], dropped := true, finished := false } ∧
      slabGet w1.pending 0 =
        some { assocObj := 10, resultSlabIdx := 0, kind := HKind.multi } ∧
      (∀ r : Int, ∃ w2,
        reactOne w1 { tag := 0, res := r, more := false } = some (w2, 10) ∧
        slabGet w2.msStore 0 = none ∧
        slabGet w2.pending 0 = none ∧
        (0 : Nat) ∉ w2.awaiting ∧
        (∀ c : Completion, c.tag = 0 → reactOne w2 c = none))) :=
  ⟨rfl, rfl, rfl, List.mem_singleton.mpr rfl,
    C1_drop_cancel c1PreWorld 0 0 0 10 [] rfl rfl rfl (List.mem_singleton.mpr rfl)⟩
